import Mathlib

/-! Reverse translation of `EnergyManagementSystem:Program`

A shallow embedding of `ReverseTranslator::translateEnergyManagementSystemProgram`
(`openstudiocore/src/energyplus/ReverseTranslator/ReverseTranslateEnergyManagementSystemProgram.cpp`)
and theorems about it.

Conventions of the embedding:

* a `std::string` is a list of characters (`Str`); concrete strings are written
  `"...".toList`;
* the translator's mutable members (`m_workspace`, `m_model`, the log) are threaded
  explicitly through a `ReverseTranslator` record;
* a call leaves in one of two ways, by `return` or by the `std::out_of_range` that
  `std::string::replace` throws when its position lies behind the end of the
  string; both are constructors of `Outcome`.
-/

namespace OpenStudio

/-- A `std::string`, as its sequence of characters. -/
abbrev Str := List Char

/-! ## Data model -/

/-- The members of `IddObjectType` that the translator inspects, and a few it does not. -/
inductive IddObjectType
  | EnergyManagementSystem_Program
  | EnergyManagementSystem_ProgramCallingManager
  | EnergyManagementSystem_MeteredOutputVariable
  | EnergyManagementSystem_OutputVariable
  | EnergyManagementSystem_Subroutine
  | EnergyManagementSystem_Actuator
  | EnergyManagementSystem_Sensor
  | EnergyManagementSystem_ConstructionIndexVariable
  | EnergyManagementSystem_CurveOrTableIndexVariable
  | EnergyManagementSystem_GlobalVariable
  | EnergyManagementSystem_InternalVariable
  | EnergyManagementSystem_TrendVariable
  | OS_EnergyManagementSystem_Program
  | OS_EnergyManagementSystem_Subroutine
  | OS_EnergyManagementSystem_Actuator
  | OS_EnergyManagementSystem_Sensor
  | OS_EnergyManagementSystem_ConstructionIndexVariable
  | OS_EnergyManagementSystem_CurveOrTableIndexVariable
  | OS_EnergyManagementSystem_GlobalVariable
  | OS_EnergyManagementSystem_InternalVariable
  | OS_EnergyManagementSystem_TrendVariable
  | Zone
  | OS_ThermalZone
  deriving DecidableEq, Repr

/-- A record of the source document, as far as the translator reads it:
`iddObject().type()`, `getString(EnergyManagementSystem_ProgramFields::Name)` and,
for each extensible group in order, its
`getString(EnergyManagementSystem_ProgramExtensibleFields::ProgramLine)`. -/
structure WorkspaceObject where
  type : IddObjectType
  Name : Option Str
  ProgramLine : List (Option Str)
  deriving DecidableEq, Repr

/-- The value of `workspaceObject.numExtensibleGroups()`. -/
def WorkspaceObject.numExtensibleGroups (w : WorkspaceObject) : Nat :=
  w.ProgramLine.length

/-- The value of `workspaceObject.getExtensibleGroup(i)...getString(ProgramLine)`. -/
def WorkspaceObject.getExtensibleGroup (w : WorkspaceObject) (i : Nat) : Option Str :=
  (w.ProgramLine.get? i).join

/-- An object of the target model: `iddObjectType()`, `toString(handle())`, `name()`
and, for a program, the lines added to it so far. -/
structure ModelObject where
  iddObjectType : IddObjectType
  handle : Str
  name : Option Str
  lines : List Str
  deriving DecidableEq, Repr

/-- The state of the translator: the source document `m_workspace.objects()`, the
target model `m_model.modelObjects()`, the records handed to
`translateAndMapWorkspaceObject` so far (a trace kept for the proofs), and the
messages logged. -/
structure ReverseTranslator where
  m_workspace : List WorkspaceObject
  m_model : List ModelObject
  translated : List WorkspaceObject
  log : List String
  deriving DecidableEq, Repr

/-- How a call of the translator ends: it returns an `OptionalModelObject`, or the
exception `std::out_of_range` leaves it. Both carry the translator's state at that
moment. -/
inductive Outcome
  | returned (result : Option ModelObject) (rt : ReverseTranslator)
  | out_of_range (rt : ReverseTranslator)
  deriving DecidableEq, Repr

/-! ## String primitives -/

/-- Membership in the character class of the regular expression
`[\+\-\*\^/=<>]`. -/
def isOperator (c : Char) : Bool :=
  c == '+' || c == '-' || c == '*' || c == '^' || c == '/' || c == '=' || c == '<' || c == '>'

/-- The call `boost::regex_replace(newline, boost::regex("[\\+\\-\\*\\^/=<>]"), " ")`:
every character of the class becomes one space, every other character is kept. -/
def regex_replace (newline : Str) : Str :=
  newline.map (fun c => if isOperator c then ' ' else c)

/-- The segments of a text between its delimiters; a text without delimiter is one
segment. -/
def segments (delimiter : Char) : Str → List Str
  | [] => [[]]
  | c :: s =>
    if c = delimiter then [] :: segments delimiter s
    else
      match segments delimiter s with
      | [] => [[c]]
      | seg :: segs => (c :: seg) :: segs

/-- Modelled from the spec: `splitString` of `utilities/core/StringHelpers`, which is
not among the sources. The text is split at every single delimiter, the delimiters
are discarded and the segments between them are the tokens, the empty segments that
adjacent delimiters produce included; the empty text, which has no delimiter, has no
token. -/
def splitString (string : Str) (delimiter : Char) : List Str :=
  if string = [] then [] else segments delimiter string

/-- The call `boost::replace_all(token, search, "")` for a search string of one
character: every occurrence of the character is removed. -/
def replace_all (token : Str) (search : Char) : Str :=
  token.filter (fun c => c != search)

/-- The call `newline.find(token)`: the least position at which `token` starts in
`newline`; `none` stands for `std::string::npos`. -/
def find : Str → Str → Option Nat
  | [], token => if token = [] then some 0 else none
  | c :: s, token =>
    if token.isPrefixOf (c :: s) then some 0 else (find s token).map (· + 1)

/-- The call `newline.replace(pos, len, uid)`: `none` stands for the
`std::out_of_range` thrown when `pos` is greater than the length; otherwise the
characters from `pos` on, at most `len` of them, give way to `uid`. -/
def replace (newline : Str) (pos len : Nat) (uid : Str) : Option Str :=
  if pos > newline.length then none
  else some (newline.take pos ++ uid ++ newline.drop (pos + len))

/-! ## The translator -/

/-- The constant `validIddObjectTypes`. -/
def validIddObjectTypes : List IddObjectType :=
  [ .OS_EnergyManagementSystem_Subroutine,
    .OS_EnergyManagementSystem_Actuator,
    .OS_EnergyManagementSystem_Sensor,
    .OS_EnergyManagementSystem_ConstructionIndexVariable,
    .OS_EnergyManagementSystem_CurveOrTableIndexVariable,
    .OS_EnergyManagementSystem_GlobalVariable,
    .OS_EnergyManagementSystem_InternalVariable,
    .OS_EnergyManagementSystem_TrendVariable ]

/-- The condition under which the first loop translates a record of the document. -/
def isPrerequisite (t : IddObjectType) : Bool :=
  t == .EnergyManagementSystem_Subroutine
  || t == .EnergyManagementSystem_Actuator
  || t == .EnergyManagementSystem_Sensor
  || t == .EnergyManagementSystem_ConstructionIndexVariable
  || t == .EnergyManagementSystem_CurveOrTableIndexVariable
  || t == .EnergyManagementSystem_GlobalVariable
  || t == .EnergyManagementSystem_InternalVariable
  || t == .EnergyManagementSystem_TrendVariable

/-- The loop over `m_workspace.objects()`. The collaborator
`translateAndMapWorkspaceObject`, which is not among the sources, is the parameter
`collaborator`, a change of the target model; each call is recorded in
`translated`. -/
def prerequisiteLoop (collaborator : WorkspaceObject → List ModelObject → List ModelObject) :
    List WorkspaceObject → ReverseTranslator → ReverseTranslator
  | [], rt => rt
  | workspaceObject :: rest, rt =>
    if isPrerequisite workspaceObject.type then
      prerequisiteLoop collaborator rest
        { rt with m_model := collaborator workspaceObject rt.m_model,
                  translated := rt.translated ++ [workspaceObject] }
    else prerequisiteLoop collaborator rest rt

/-- The vector `modelObjects`: the objects of the model whose type is one of
`validIddObjectTypes`, in the order of `m_model.modelObjects()`. -/
def collectModelObjects (m_model : List ModelObject) : List ModelObject :=
  m_model.filter (fun mo => validIddObjectTypes.contains mo.iddObjectType)

/-- The loop over `modelObjects` for one cleaned token: the first object whose name
is set and equals the token has the first occurrence of the token in `newline`
replaced by its handle, and the loop is left. -/
def modelObjectLoop (token : Str) : List ModelObject → Str → Option Str
  | [], newline => some newline
  | mo :: rest, newline =>
    if mo.name = some token then
      match find newline token with
      | none => none
      | some pos => replace newline pos token.length mo.handle
    else modelObjectLoop token rest newline

/-- The loop over the tokens of one line: each token loses its parentheses and goes
through `modelObjectLoop`, on the line as the tokens before it left it. -/
def tokenLoop (modelObjects : List ModelObject) : List Str → Str → Option Str
  | [], newline => some newline
  | token :: rest, newline =>
    match modelObjectLoop (replace_all (replace_all token '(') ')') modelObjects newline with
    | none => none
    | some newline1 => tokenLoop modelObjects rest newline1

/-- The vector `tokens` of a line. -/
def tokens (newline : Str) : List Str :=
  splitString (regex_replace newline) ' '

/-- The body of `if (line)` up to `addLine`: the value of `newline` that is added to
the program, or `none` when `std::out_of_range` is thrown. -/
def rewriteLine (modelObjects : List ModelObject) (line : Str) : Option Str :=
  tokenLoop modelObjects (tokens line) line

/-- Modelled from the spec: `EnergyManagementSystemProgram::addLine`, which is not
among the sources; the lines of a target program are an ordered sequence to which a
line is appended. -/
def ModelObject.addLine (emsProgram : ModelObject) (newline : Str) : ModelObject :=
  { emsProgram with lines := emsProgram.lines ++ [newline] }

/-- The loop `for (unsigned i = 0; i < n; ++i)` over the indices still to visit. The
result is the program as built so far and whether the loop ran to its end (`true`)
or was left by `std::out_of_range` (`false`). -/
def programLineLoop (modelObjects : List ModelObject) (workspaceObject : WorkspaceObject) :
    List Nat → ModelObject → ModelObject × Bool
  | [], emsProgram => (emsProgram, true)
  | i :: rest, emsProgram =>
    match workspaceObject.getExtensibleGroup i with
    | none => programLineLoop modelObjects workspaceObject rest emsProgram
    | some line =>
      match rewriteLine modelObjects line with
      | none => (emsProgram, false)
      | some newline =>
        programLineLoop modelObjects workspaceObject rest (emsProgram.addLine newline)

/-- The function `ReverseTranslator::translateEnergyManagementSystemProgram`. The
handle of the program object it constructs is the parameter `newHandle`; the object
lives in the target model, behind the objects that were there, from its
construction on. -/
def translateEnergyManagementSystemProgram
    (collaborator : WorkspaceObject → List ModelObject → List ModelObject)
    (newHandle : Str) (rt : ReverseTranslator) (workspaceObject : WorkspaceObject) : Outcome :=
  if workspaceObject.type ≠ .EnergyManagementSystem_Program then
    .returned none
      { rt with log := rt.log ++
          ["WorkspaceObject is not IddObjectType: EnergyManagementSystem_Program"] }
  else
    match workspaceObject.Name with
    | none =>
      .returned none
        { rt with log := rt.log ++ ["WorkspaceObject EnergyManagementSystem_Program has no Name"] }
    | some s =>
      let rt1 := prerequisiteLoop collaborator rt.m_workspace rt
      let emsProgram : ModelObject :=
        { iddObjectType := .OS_EnergyManagementSystem_Program,
          handle := newHandle, name := some s, lines := [] }
      let modelObjects := collectModelObjects (rt1.m_model ++ [emsProgram])
      let n := workspaceObject.numExtensibleGroups
      match programLineLoop modelObjects workspaceObject (List.range n) emsProgram with
      | (emsProgram1, true) =>
        .returned (some emsProgram1) { rt1 with m_model := rt1.m_model ++ [emsProgram1] }
      | (emsProgram1, false) =>
        .out_of_range { rt1 with m_model := rt1.m_model ++ [emsProgram1] }

/-! ## Vocabulary of the statements -/

/-- The cleaned tokens of a line: the tokens with every parenthesis removed, the
strings that are compared with the names of the model objects. -/
def cleanedTokens (line : Str) : List Str :=
  (tokens line).map (fun token => replace_all (replace_all token '(') ')')

/-- The present lines of a record, in order. -/
def presentLines (workspaceObject : WorkspaceObject) : List Str :=
  workspaceObject.ProgramLine.reduceOption

/-- A referenceable object of the given kind with the given name and handle. -/
def known (kind : IddObjectType) (name handle : Str) : ModelObject :=
  { iddObjectType := kind, handle := handle, name := some name, lines := [] }

/-- The vector `modelObjects` that the per-line phase of a call uses: the
referenceable objects of the model as the prerequisite loop leaves it. -/
def candidates (collaborator : WorkspaceObject → List ModelObject → List ModelObject)
    (rt : ReverseTranslator) : List ModelObject :=
  collectModelObjects (prerequisiteLoop collaborator rt.m_workspace rt).m_model

/-- A program record with the given name and lines, all present. -/
def programRecord (name : Str) (lines : List Str) : WorkspaceObject :=
  { type := .EnergyManagementSystem_Program, Name := some name,
    ProgramLine := lines.map some }

/-- A translator that has an empty document and the given target model. -/
def translatorWith (m_model : List ModelObject) : ReverseTranslator :=
  { m_workspace := [], m_model := m_model, translated := [], log := [] }

/-- A collaborator that translates a record into one object of the global variable
kind, with the name of the record and a fixed handle. -/
def sampleCollaborator (w : WorkspaceObject) (m : List ModelObject) : List ModelObject :=
  m ++ [{ iddObjectType := .OS_EnergyManagementSystem_GlobalVariable,
          handle := "{id-G}".toList, name := w.Name, lines := [] }]

/-- A character that is neither a space, nor an operator character, nor a
parenthesis. -/
def isPlain (c : Char) : Bool :=
  !(c == ' ' || isOperator c || c == '(' || c == ')')

/-- The first object of the list whose name is set and equals the token. -/
def firstNamed (token : Str) (modelObjects : List ModelObject) : Option ModelObject :=
  modelObjects.find? (fun mo => decide (mo.name = some token))

/-- The eight kinds of source records that a program may reference. -/
def referenceableKinds : List IddObjectType :=
  [ .EnergyManagementSystem_Subroutine,
    .EnergyManagementSystem_Actuator,
    .EnergyManagementSystem_Sensor,
    .EnergyManagementSystem_ConstructionIndexVariable,
    .EnergyManagementSystem_CurveOrTableIndexVariable,
    .EnergyManagementSystem_GlobalVariable,
    .EnergyManagementSystem_InternalVariable,
    .EnergyManagementSystem_TrendVariable ]

/-- The records of a document that are of a referenceable kind, in document order. -/
def referenceableRecords (m_workspace : List WorkspaceObject) : List WorkspaceObject :=
  m_workspace.filter (fun w => decide (w.type ∈ referenceableKinds))

/-- The target model after the collaborator has translated the given records, one
after the other. -/
def translateAll (collaborator : WorkspaceObject → List ModelObject → List ModelObject)
    (records : List WorkspaceObject) (m_model : List ModelObject) : List ModelObject :=
  records.foldl (fun m w => collaborator w m) m_model

/-- A character at which a line is split: a space or an operator character. -/
def isDelimiter (c : Char) : Bool :=
  c == ' ' || isOperator c

/-- An opening or closing parenthesis. -/
def isParenthesis (c : Char) : Bool :=
  c == '(' || c == ')'

/-- A segment of a line between two delimiters, seen from a name: either a
reference, the name as a whole token with nothing but parentheses before and after
it, or any other segment. -/
inductive Piece
  | reference (opening closing : Str)
  | other (segment : Str)
  deriving DecidableEq, Repr

/-- The text of a piece when `x` stands at the place of the name. -/
def Piece.render (x : Str) : Piece → Str
  | .reference opening closing => opening ++ x ++ closing
  | .other segment => segment

/-- The line made of the given pieces, each followed by its delimiter, and of a last
piece, with `x` at the place of the name. -/
def renderLine (x : Str) : List (Piece × Char) → Piece → Str
  | [], last => last.render x
  | (piece, delimiter) :: rest, last =>
    piece.render x ++ delimiter :: renderLine x rest last

/-- The conditions on a piece of a line in which the name `N` occurs only as a whole
token: around a reference stand parentheses only; another segment holds no
delimiter, its cleaned token is the name of no candidate, and the text `N` does not
occur in it. -/
def Piece.wellFormed (N : Str) (modelObjects : List ModelObject) : Piece → Bool
  | .reference opening closing => opening.all isParenthesis && closing.all isParenthesis
  | .other segment =>
    segment.all (fun c => !isDelimiter c)
    && modelObjects.all (fun mo => decide (mo.name ≠ some (replace_all (replace_all segment '(') ')')))
    && (find segment N).isNone

/-! ## Lemmas on the loops -/

theorem modelObjectLoop_no_match (token : Str) (modelObjects : List ModelObject) (newline : Str)
    (h : ∀ mo ∈ modelObjects, mo.name ≠ some token) :
    modelObjectLoop token modelObjects newline = some newline := by
  induction modelObjects with
  | nil => rfl
  | cons mo rest ih =>
    have h1 : mo.name ≠ some token := h mo (List.mem_cons_self _ _)
    simp only [modelObjectLoop, h1, if_false]
    exact ih (fun m hm => h m (List.mem_cons_of_mem _ hm))

theorem tokenLoop_no_match (modelObjects : List ModelObject) (toks : List Str) (newline : Str)
    (h : ∀ token ∈ toks, ∀ mo ∈ modelObjects,
      mo.name ≠ some (replace_all (replace_all token '(') ')')) :
    tokenLoop modelObjects toks newline = some newline := by
  induction toks with
  | nil => rfl
  | cons token rest ih =>
    simp only [tokenLoop]
    rw [modelObjectLoop_no_match _ _ _ (h token (List.mem_cons_self _ _))]
    exact ih (fun t ht => h t (List.mem_cons_of_mem _ ht))

theorem collectModelObjects_append_program (m_model : List ModelObject) (emsProgram : ModelObject)
    (h : emsProgram.iddObjectType = .OS_EnergyManagementSystem_Program) :
    collectModelObjects (m_model ++ [emsProgram]) = collectModelObjects m_model := by
  simp [collectModelObjects, List.filter_append, h, validIddObjectTypes]

theorem filterMap_range_getExtensibleGroup (l : List (Option Str)) :
    (List.range l.length).filterMap (fun i => (l.get? i).join) = l.reduceOption := by
  induction l with
  | nil => rfl
  | cons a t ih =>
    rw [List.length_cons, List.range_succ_eq_map, List.filterMap_cons, List.filterMap_map]
    have hfun : ((fun i => ((a :: t).get? i).join) ∘ Nat.succ) = (fun i => (t.get? i).join) := by
      funext i; simp
    rw [hfun, ih]
    cases a <;> simp [List.reduceOption_cons_of_none, List.reduceOption_cons_of_some]

theorem programLineLoop_all_rewritten (modelObjects : List ModelObject) (w : WorkspaceObject)
    (indices : List Nat) (emsProgram : ModelObject) (out : List Str)
    (h : (indices.filterMap w.getExtensibleGroup).map (rewriteLine modelObjects) = out.map some) :
    programLineLoop modelObjects w indices emsProgram
      = ({ emsProgram with lines := emsProgram.lines ++ out }, true) := by
  induction indices generalizing emsProgram out with
  | nil =>
    cases out with
    | nil => simp [programLineLoop]
    | cons a t => simp at h
  | cons i rest ih =>
    cases hi : w.getExtensibleGroup i with
    | none =>
      simp only [programLineLoop, hi]
      rw [List.filterMap_cons_none hi] at h
      exact ih emsProgram out h
    | some line =>
      rw [List.filterMap_cons_some hi] at h
      cases out with
      | nil => simp at h
      | cons nl t =>
        simp only [List.map_cons, List.cons.injEq] at h
        simp only [programLineLoop, hi, h.1]
        rw [ih (emsProgram.addLine nl) t h.2]
        simp [ModelObject.addLine]

theorem programLineLoop_keeps (modelObjects : List ModelObject) (w : WorkspaceObject)
    (indices : List Nat) (emsProgram : ModelObject) :
    (programLineLoop modelObjects w indices emsProgram).1.name = emsProgram.name
    ∧ (programLineLoop modelObjects w indices emsProgram).1.handle = emsProgram.handle
    ∧ (programLineLoop modelObjects w indices emsProgram).1.iddObjectType
        = emsProgram.iddObjectType := by
  induction indices generalizing emsProgram with
  | nil => simp [programLineLoop]
  | cons i rest ih =>
    simp only [programLineLoop]
    split
    · exact ih emsProgram
    · split
      · simp
      · rename_i nl _
        simpa [ModelObject.addLine] using ih (emsProgram.addLine nl)

theorem translate_of_all_rewritten
    (collaborator : WorkspaceObject → List ModelObject → List ModelObject)
    (newHandle : Str) (rt : ReverseTranslator) (s : Str) (programLine : List (Option Str))
    (out : List Str)
    (h : programLine.reduceOption.map (rewriteLine (candidates collaborator rt)) = out.map some) :
    translateEnergyManagementSystemProgram collaborator newHandle rt
        { type := .EnergyManagementSystem_Program, Name := some s, ProgramLine := programLine }
      = .returned
          (some { iddObjectType := .OS_EnergyManagementSystem_Program, handle := newHandle,
                  name := some s, lines := out })
          { prerequisiteLoop collaborator rt.m_workspace rt with
            m_model := (prerequisiteLoop collaborator rt.m_workspace rt).m_model ++
              [{ iddObjectType := .OS_EnergyManagementSystem_Program, handle := newHandle,
                 name := some s, lines := out }] } := by
  have hloop := programLineLoop_all_rewritten (candidates collaborator rt)
    { type := .EnergyManagementSystem_Program, Name := some s, ProgramLine := programLine }
    (List.range programLine.length)
    { iddObjectType := .OS_EnergyManagementSystem_Program, handle := newHandle,
      name := some s, lines := [] } out
    (by
      have hfun : (WorkspaceObject.getExtensibleGroup
          { type := .EnergyManagementSystem_Program, Name := some s, ProgramLine := programLine })
          = (fun i => (programLine.get? i).join) := by
        funext i; rfl
      rw [hfun, filterMap_range_getExtensibleGroup programLine]; exact h)
  simp only [translateEnergyManagementSystemProgram, ne_eq, not_true_eq_false, if_false,
    WorkspaceObject.numExtensibleGroups]
  rw [collectModelObjects_append_program _ _ rfl]
  simp only [candidates] at hloop
  rw [hloop]
  simp

theorem programLineLoop_finished (modelObjects : List ModelObject) (w : WorkspaceObject)
    (indices : List Nat) (emsProgram emsProgram1 : ModelObject)
    (h : programLineLoop modelObjects w indices emsProgram = (emsProgram1, true)) :
    ∃ out : List Str,
      (indices.filterMap w.getExtensibleGroup).map (rewriteLine modelObjects) = out.map some
      ∧ emsProgram1 = { emsProgram with lines := emsProgram.lines ++ out } := by
  induction indices generalizing emsProgram with
  | nil =>
    simp only [programLineLoop, Prod.mk.injEq, and_true] at h
    exact ⟨[], rfl, by simp [← h]⟩
  | cons i rest ih =>
    cases hi : w.getExtensibleGroup i with
    | none =>
      simp only [programLineLoop, hi] at h
      obtain ⟨out, h1, h2⟩ := ih emsProgram h
      exact ⟨out, by rw [List.filterMap_cons_none hi]; exact h1, h2⟩
    | some line =>
      cases hl : rewriteLine modelObjects line with
      | none => simp [programLineLoop, hi, hl] at h
      | some nl =>
        simp only [programLineLoop, hi, hl] at h
        obtain ⟨out, h1, h2⟩ := ih (emsProgram.addLine nl) h
        refine ⟨nl :: out, ?_, ?_⟩
        · rw [List.filterMap_cons_some hi]
          simp [hl, h1]
        · rw [h2]
          simp [ModelObject.addLine]

theorem translate_returned_program
    (collaborator : WorkspaceObject → List ModelObject → List ModelObject)
    (newHandle : Str) (rt : ReverseTranslator) (s : Str) (programLine : List (Option Str))
    (emsProgram : ModelObject) (rt1 : ReverseTranslator)
    (h : translateEnergyManagementSystemProgram collaborator newHandle rt
          { type := .EnergyManagementSystem_Program, Name := some s, ProgramLine := programLine }
        = .returned (some emsProgram) rt1) :
    programLine.reduceOption.map (rewriteLine (candidates collaborator rt))
      = emsProgram.lines.map some := by
  simp only [translateEnergyManagementSystemProgram, ne_eq, not_true_eq_false, if_false,
    WorkspaceObject.numExtensibleGroups] at h
  rw [collectModelObjects_append_program _ _ rfl] at h
  split at h
  · rename_i p hp
    obtain ⟨out, h1, h2⟩ := programLineLoop_finished _ _ _ _ _ hp
    have hfun : (WorkspaceObject.getExtensibleGroup
        { type := .EnergyManagementSystem_Program, Name := some s, ProgramLine := programLine })
        = (fun i => (programLine.get? i).join) := by
      funext i; rfl
    rw [hfun, filterMap_range_getExtensibleGroup programLine] at h1
    injection h with h3 h4
    injection h3 with h3
    subst h3
    rw [h2]
    simpa [candidates] using h1
  · simp at h

/-! ## Lemmas on the string primitives -/

theorem isPlain_iff (c : Char) :
    isPlain c = true ↔ c ≠ ' ' ∧ isOperator c = false ∧ c ≠ '(' ∧ c ≠ ')' := by
  simp [isPlain, not_or, and_assoc]

theorem regex_replace_append (a b : Str) :
    regex_replace (a ++ b) = regex_replace a ++ regex_replace b := by
  simp [regex_replace]

theorem regex_replace_plain (N : Str) (h : ∀ c ∈ N, isPlain c = true) : regex_replace N = N := by
  induction N with
  | nil => rfl
  | cons c t ih =>
    have hc := (isPlain_iff c).1 (h c (List.mem_cons_self _ _))
    have ht := ih (fun x hx => h x (List.mem_cons_of_mem _ hx))
    simp only [regex_replace, List.map_cons] at ht ⊢
    rw [ht]
    simp [hc.2.1]

theorem replace_all_plain (N : Str) (h : ∀ c ∈ N, isPlain c = true) :
    replace_all (replace_all N '(') ')' = N := by
  have h1 : replace_all N '(' = N := by
    unfold replace_all
    rw [List.filter_eq_self]
    intro c hc
    simpa using ((isPlain_iff c).1 (h c hc)).2.2.1
  rw [h1]
  unfold replace_all
  rw [List.filter_eq_self]
  intro c hc
  simpa using ((isPlain_iff c).1 (h c hc)).2.2.2

theorem segments_ne_nil (d : Char) (s : Str) : segments d s ≠ [] := by
  cases s with
  | nil => simp [segments]
  | cons c t =>
    simp only [segments]
    split
    · simp
    · split <;> simp

theorem segments_no_delimiter (d : Char) (seg : Str) (h : d ∉ seg) : segments d seg = [seg] := by
  induction seg with
  | nil => rfl
  | cons c t ih =>
    have hc : c ≠ d := fun e => h (e ▸ List.mem_cons_self _ _)
    have ht : d ∉ t := fun e => h (List.mem_cons_of_mem _ e)
    simp [segments, hc, ih ht]

theorem segments_append_delimiter (d : Char) (seg rest : Str) (h : d ∉ seg) :
    segments d (seg ++ d :: rest) = seg :: segments d rest := by
  induction seg with
  | nil => simp [segments]
  | cons c t ih =>
    have hc : c ≠ d := fun e => h (e ▸ List.mem_cons_self _ _)
    have ht : d ∉ t := fun e => h (List.mem_cons_of_mem _ e)
    simp [segments, hc, ih ht]

theorem isPrefixOf_self_append (N suf : Str) : N.isPrefixOf (N ++ suf) = true := by
  rw [List.isPrefixOf_iff_prefix]
  exact List.prefix_append N suf

theorem find_self_append (N suf : Str) : find (N ++ suf) N = some 0 := by
  cases hl : N ++ suf with
  | nil =>
    have hN : N = [] := (List.append_eq_nil.1 hl).1
    simp [find, hN]
  | cons c t =>
    have := isPrefixOf_self_append N suf
    rw [hl] at this
    simp [find, this]

theorem not_prefix_of_delimiter (N pre rest : Str) (d : Char) (hd : d ∉ N)
    (hpre : ¬ N <+: pre ++ [d]) : ¬ N <+: pre ++ d :: rest := by
  intro hN
  have h2 : pre ++ [d] <+: pre ++ d :: rest := by
    rw [List.prefix_append_right_inj]
    exact ⟨rest, rfl⟩
  rcases List.prefix_or_prefix_of_prefix hN h2 with h | h
  · exact hpre h
  · obtain ⟨t, ht⟩ := h
    apply hd
    rw [← ht]
    simp

theorem find_eq_none_cons (c : Char) (s N : Str) (h : find (c :: s) N = none) :
    ¬ N <+: c :: s ∧ find s N = none := by
  simp only [find] at h
  split at h
  · simp at h
  · rename_i hp
    refine ⟨?_, by simpa using h⟩
    rw [← List.isPrefixOf_iff_prefix]
    exact hp

theorem find_behind_delimiter (pre N suf : Str) (d : Char) (hd : d ∉ N) (hne : N ≠ [])
    (hpre : find (pre ++ [d]) N = none) :
    find (pre ++ d :: (N ++ suf)) N = some (pre.length + 1) := by
  induction pre with
  | nil =>
    have hp : N.isPrefixOf (d :: (N ++ suf)) = false := by
      cases N with
      | nil => exact absurd rfl hne
      | cons c t =>
        have hc : c ≠ d := fun e => hd (e ▸ List.mem_cons_self _ _)
        simp [List.isPrefixOf, hc]
    simp [find, hp, find_self_append]
  | cons a t ih =>
    obtain ⟨h1, h2⟩ := find_eq_none_cons a (t ++ [d]) N hpre
    have hnp : ¬ N <+: (a :: t) ++ d :: (N ++ suf) :=
      not_prefix_of_delimiter N (a :: t) (N ++ suf) d hd h1
    have hp : N.isPrefixOf (a :: (t ++ d :: (N ++ suf))) = false := by
      rw [← Bool.not_eq_true, List.isPrefixOf_iff_prefix]
      exact hnp
    simp [find, hp, ih h2]

theorem replace_at (pre N suf uid : Str) :
    replace (pre ++ N ++ suf) pre.length N.length uid = some (pre ++ uid ++ suf) := by
  have h1 : ¬ pre.length > (pre ++ N ++ suf).length := by
    simp only [List.length_append]; omega
  have e1 : (pre ++ N ++ suf).take pre.length = pre := by
    rw [List.append_assoc]; exact List.take_left _ _
  have e2 : (pre ++ N ++ suf).drop (pre.length + N.length) = suf := by
    rw [← List.length_append]; exact List.drop_left _ _
  simp only [replace, h1, if_false, e1, e2]

theorem modelObjectLoop_firstNamed (token : Str) (modelObjects : List ModelObject)
    (mo : ModelObject) (newline : Str) (h : firstNamed token modelObjects = some mo) :
    modelObjectLoop token modelObjects newline
      = (find newline token).bind (fun pos => replace newline pos token.length mo.handle) := by
  induction modelObjects with
  | nil => simp [firstNamed] at h
  | cons m rest ih =>
    by_cases hm : m.name = some token
    · have : m = mo := by simpa [firstNamed, List.find?, hm] using h
      subst this
      simp only [modelObjectLoop, hm, if_true]
      cases find newline token <;> rfl
    · have hrest : firstNamed token rest = some mo := by
        simpa [firstNamed, List.find?, hm] using h
      simp only [modelObjectLoop, hm, if_false]
      exact ih hrest

theorem find_singleton_none (N : Str) (d : Char) (hd : d ∉ N) (hne : N ≠ []) :
    find [d] N = none := by
  cases N with
  | nil => exact absurd rfl hne
  | cons c t =>
    have hc : c ≠ d := fun e => hd (e ▸ List.mem_cons_self _ _)
    simp [find, List.isPrefixOf, hc]

theorem plain_not_mem (N : Str) (h : ∀ c ∈ N, isPlain c = true) :
    ' ' ∉ N ∧ '(' ∉ N ∧ ')' ∉ N := by
  refine ⟨fun hm => ?_, fun hm => ?_, fun hm => ?_⟩
  · exact ((isPlain_iff _).1 (h _ hm)).1 rfl
  · exact ((isPlain_iff _).1 (h _ hm)).2.2.1 rfl
  · exact ((isPlain_iff _).1 (h _ hm)).2.2.2 rfl

theorem tokens_parenthesised (N : Str) (h : ∀ c ∈ N, isPlain c = true) :
    tokens ("(".toList ++ N ++ ")".toList) = ["(".toList ++ N ++ ")".toList] := by
  have hsp := (plain_not_mem N h).1
  have hreg : regex_replace ("(".toList ++ N ++ ")".toList) = "(".toList ++ N ++ ")".toList := by
    rw [regex_replace_append, regex_replace_append, regex_replace_plain N h]
    rfl
  have hne : "(".toList ++ N ++ ")".toList ≠ [] := by simp
  have hno : ' ' ∉ "(".toList ++ N ++ ")".toList := by
    simp only [List.mem_append, not_or]
    exact ⟨⟨by decide, hsp⟩, by decide⟩
  simp only [tokens, splitString, hreg, hne, if_false]
  exact segments_no_delimiter ' ' _ hno

theorem tokens_operand (N : Str) (h : ∀ c ∈ N, isPlain c = true) :
    tokens ("X1 = ".toList ++ N ++ " + 3.2".toList)
      = ["X1".toList, [], [], N, [], [], "3.2".toList] := by
  have hsp := (plain_not_mem N h).1
  have hreg : regex_replace ("X1 = ".toList ++ N ++ " + 3.2".toList)
      = "X1".toList ++ ' ' :: ([] ++ ' ' :: ([] ++ ' ' :: (N ++ ' ' :: ([] ++ ' ' ::
          ([] ++ ' ' :: "3.2".toList))))) := by
    rw [regex_replace_append, regex_replace_append, regex_replace_plain N h]
    have e1 : regex_replace "X1 = ".toList = "X1   ".toList := by decide
    have e2 : regex_replace " + 3.2".toList = "   3.2".toList := by decide
    rw [e1, e2]
    simp
  have hne : regex_replace ("X1 = ".toList ++ N ++ " + 3.2".toList) ≠ [] := by
    rw [hreg]; simp
  simp only [tokens, splitString, hne, if_false]
  rw [hreg, segments_append_delimiter _ _ _ (by decide),
    segments_append_delimiter _ _ _ (by simp), segments_append_delimiter _ _ _ (by simp),
    segments_append_delimiter _ _ _ hsp, segments_append_delimiter _ _ _ (by simp),
    segments_append_delimiter _ _ _ (by simp), segments_no_delimiter _ _ (by decide)]

theorem isPrerequisite_iff (t : IddObjectType) :
    isPrerequisite t = true ↔ t ∈ referenceableKinds := by
  cases t <;> decide

theorem prerequisiteLoop_eq (collaborator : WorkspaceObject → List ModelObject → List ModelObject)
    (m_workspace : List WorkspaceObject) (rt : ReverseTranslator) :
    prerequisiteLoop collaborator m_workspace rt
      = { rt with
          m_model := translateAll collaborator (referenceableRecords m_workspace) rt.m_model,
          translated := rt.translated ++ referenceableRecords m_workspace } := by
  induction m_workspace generalizing rt with
  | nil => simp [prerequisiteLoop, referenceableRecords, translateAll]
  | cons w rest ih =>
    by_cases hw : isPrerequisite w.type = true
    · have hmem : w.type ∈ referenceableKinds := (isPrerequisite_iff _).1 hw
      simp only [prerequisiteLoop, hw, if_true]
      rw [ih]
      simp [referenceableRecords, translateAll, List.filter_cons, hmem]
    · have hmem : ¬ w.type ∈ referenceableKinds := fun h => hw ((isPrerequisite_iff _).2 h)
      have e : prerequisiteLoop collaborator (w :: rest) rt
          = prerequisiteLoop collaborator rest rt := by
        simp [prerequisiteLoop, hw]
      rw [e, ih]
      simp [referenceableRecords, translateAll, List.filter_cons, hmem]

theorem regex_replace_no_operator (s : Str) : ∀ c ∈ regex_replace s, isOperator c = false := by
  intro c hc
  simp only [regex_replace, List.mem_map] at hc
  obtain ⟨a, _, ha⟩ := hc
  by_cases hop : isOperator a = true
  · simp only [hop, if_true] at ha
    rw [← ha]; decide
  · simp only [hop] at ha
    rw [← ha]; simpa using hop

theorem segments_mem (d : Char) (s : Str) :
    ∀ seg ∈ segments d s, d ∉ seg ∧ ∀ c ∈ seg, c ∈ s := by
  induction s with
  | nil =>
    intro seg hseg
    simp only [segments, List.mem_singleton] at hseg
    subst hseg
    simp
  | cons a t ih =>
    intro seg hseg
    by_cases ha : a = d
    · simp only [segments, ha, if_true, List.mem_cons] at hseg
      rcases hseg with h | h
      · subst h; simp
      · exact ⟨(ih seg h).1, fun c hc => List.mem_cons_of_mem _ ((ih seg h).2 c hc)⟩
    · simp only [segments, ha, if_false] at hseg
      cases hs : segments d t with
      | nil => exact absurd hs (segments_ne_nil d t)
      | cons first others =>
        rw [hs] at hseg ih
        simp only [List.mem_cons] at hseg
        rcases hseg with h | h
        · subst h
          have hfirst := ih first (List.mem_cons_self _ _)
          refine ⟨?_, ?_⟩
          · intro hmem
            rcases List.mem_cons.1 hmem with h1 | h1
            · exact ha h1.symm
            · exact hfirst.1 h1
          · intro c hc
            rcases List.mem_cons.1 hc with h1 | h1
            · rw [h1]; exact List.mem_cons_self _ _
            · exact List.mem_cons_of_mem _ (hfirst.2 c h1)
        · have hother := ih seg (List.mem_cons_of_mem _ h)
          exact ⟨hother.1, fun c hc => List.mem_cons_of_mem _ (hother.2 c hc)⟩

theorem cleanedTokens_plain (line : Str) :
    ∀ token ∈ cleanedTokens line, ∀ c ∈ token, isPlain c = true := by
  intro token htoken c hc
  simp only [cleanedTokens, tokens, splitString, List.mem_map] at htoken
  obtain ⟨seg, hseg, hclean⟩ := htoken
  split at hseg
  · simp at hseg
  · have hs := segments_mem ' ' (regex_replace line) seg hseg
    rw [← hclean] at hc
    simp only [replace_all, List.mem_filter, bne_iff_ne, ne_eq] at hc
    obtain ⟨⟨hmem, h1⟩, h2⟩ := hc
    rw [isPlain_iff]
    refine ⟨?_, regex_replace_no_operator line c (hs.2 c hmem), h1, h2⟩
    intro hsp
    exact hs.1 (hsp ▸ hmem)

theorem find_some_spec (s t : Str) (p : Nat) (h : find s t = some p) :
    (∃ pre suf, s = pre ++ t ++ suf ∧ pre.length = p) ∧ ∀ k < p, ¬ t <+: s.drop k := by
  induction s generalizing p with
  | nil =>
    simp only [find] at h
    split at h
    · rename_i ht
      injection h with h
      subst h ht
      exact ⟨⟨[], [], rfl, rfl⟩, fun k hk => absurd hk (Nat.not_lt_zero k)⟩
    · simp at h
  | cons c s ih =>
    simp only [find] at h
    split at h
    · rename_i hp
      injection h with h
      subst h
      rw [List.isPrefixOf_iff_prefix] at hp
      obtain ⟨suf, hsuf⟩ := hp
      exact ⟨⟨[], suf, by simpa using hsuf.symm, rfl⟩,
        fun k hk => absurd hk (Nat.not_lt_zero k)⟩
    · rename_i hp
      cases hq : find s t with
      | none => simp [hq] at h
      | some q =>
        simp only [hq, Option.map_some', Option.some.injEq] at h
        subst h
        obtain ⟨⟨pre, suf, hs, hlen⟩, hmin⟩ := ih q hq
        refine ⟨⟨c :: pre, suf, by simp [hs], by simp [hlen]⟩, ?_⟩
        intro k hk
        cases k with
        | zero =>
          rw [← List.isPrefixOf_iff_prefix]
          simpa using hp
        | succ j =>
          simpa using hmin j (by omega)

theorem find_none_spec (s t : Str) (h : find s t = none) :
    ∀ pre suf, s ≠ pre ++ t ++ suf := by
  induction s with
  | nil =>
    intro pre suf hs
    simp only [find] at h
    split at h
    · simp at h
    · rename_i ht
      have := congrArg List.length hs
      simp only [List.length_nil, List.length_append] at this
      exact ht (List.length_eq_zero.1 (by omega))
  | cons c s ih =>
    obtain ⟨hp, hrest⟩ := find_eq_none_cons c s t h
    intro pre suf hs
    cases pre with
    | nil => exact hp ⟨suf, by simpa using hs.symm⟩
    | cons a pre1 =>
      simp only [List.cons_append, List.cons.injEq] at hs
      exact ih hrest pre1 suf hs.2

/-! ## Lemmas on repeated references -/

theorem find_nil (s : Str) : find s [] = some 0 := by
  cases s <;> simp [find]

theorem find_skip_char (N rest : Str) (c : Char) (hc : c ∉ N) (hne : N ≠ []) :
    find (c :: rest) N = (find rest N).map (· + 1) := by
  cases N with
  | nil => exact absurd rfl hne
  | cons a t =>
    have ha : a ≠ c := fun e => hc (e ▸ List.mem_cons_self _ _)
    simp [find, List.isPrefixOf, ha]

theorem find_skip_chars (N Y rest : Str) (hY : ∀ c ∈ Y, c ∉ N) (hne : N ≠ []) :
    find (Y ++ rest) N = (find rest N).map (· + Y.length) := by
  induction Y with
  | nil => simp
  | cons c t ih =>
    rw [List.cons_append, find_skip_char N _ c (hY c (List.mem_cons_self _ _)) hne,
      ih (fun x hx => hY x (List.mem_cons_of_mem _ hx))]
    cases find rest N with
    | none => rfl
    | some p =>
      simp only [Option.map_some', List.length_cons, Option.some.injEq]
      try omega

theorem prefix_of_prefix_delimiter (N pre rest : Str) (d : Char) (hd : d ∉ N)
    (hN : N <+: pre ++ d :: rest) : N <+: pre := by
  have h2 : pre <+: pre ++ d :: rest := List.prefix_append _ _
  rcases List.prefix_or_prefix_of_prefix hN h2 with h | h
  · exact h
  · obtain ⟨t, ht⟩ := h
    cases t with
    | nil => rw [← ht]; simp
    | cons a t1 =>
      exfalso
      rw [← ht, List.prefix_append_right_inj] at hN
      simp only [List.cons_append, List.cons_prefix_cons] at hN
      apply hd
      rw [← ht, ← hN.1]
      simp

theorem find_skip_block (N M rest : Str) (d : Char) (hM : find M N = none) (hd : d ∉ N)
    (hne : N ≠ []) :
    find (M ++ d :: rest) N = (find rest N).map (· + (M.length + 1)) := by
  induction M with
  | nil =>
    rw [List.nil_append, find_skip_char N rest d hd hne]
    simp
  | cons a t ih =>
    obtain ⟨hp, ht⟩ := find_eq_none_cons a t N hM
    have hnp : ¬ N <+: (a :: t) ++ d :: rest :=
      fun h => hp (prefix_of_prefix_delimiter N (a :: t) rest d hd h)
    have hb : N.isPrefixOf (a :: (t ++ d :: rest)) = false := by
      rw [← Bool.not_eq_true, List.isPrefixOf_iff_prefix]
      exact hnp
    have hstep : find (a :: (t ++ d :: rest)) N = (find (t ++ d :: rest) N).map (· + 1) := by
      simp only [find, hb, Bool.false_eq_true, if_false]
    rw [List.cons_append, hstep, ih ht]
    cases find rest N with
    | none => rfl
    | some p =>
      simp only [Option.map_some', List.length_cons, Option.some.injEq]
      try omega

theorem find_skip_block_chars (N M Y rest : Str) (d : Char) (hM : find M N = none)
    (hY : ∀ c ∈ Y, c ∉ N) (hd : d ∉ N) (hne : N ≠ []) :
    find (M ++ (Y ++ d :: rest)) N = (find rest N).map (· + (M.length + (Y.length + 1))) := by
  cases Y with
  | nil =>
    rw [List.nil_append, find_skip_block N M rest d hM hd hne]
    simp
  | cons c t =>
    rw [List.cons_append, find_skip_block N M _ c hM (hY c (List.mem_cons_self _ _)) hne,
      find_skip_chars N t _ (fun x hx => hY x (List.mem_cons_of_mem _ hx)) hne,
      find_skip_char N rest d hd hne]
    cases find rest N with
    | none => rfl
    | some p =>
      simp only [Option.map_some', List.length_cons, Option.some.injEq]
      try omega

theorem plain_not_parenthesis (N : Str) (hplain : ∀ c ∈ N, isPlain c = true) (c : Char)
    (hc : isParenthesis c = true) : c ∉ N := by
  intro hmem
  have h := (isPlain_iff c).1 (hplain c hmem)
  simp only [isParenthesis, Bool.or_eq_true, beq_iff_eq] at hc
  rcases hc with hc | hc
  · exact h.2.2.1 hc
  · exact h.2.2.2 hc

theorem plain_not_delimiter (N : Str) (hplain : ∀ c ∈ N, isPlain c = true) (c : Char)
    (hc : isDelimiter c = true) : c ∉ N := by
  intro hmem
  have h := (isPlain_iff c).1 (hplain c hmem)
  simp only [isDelimiter, Bool.or_eq_true, beq_iff_eq] at hc
  rcases hc with hc | hc
  · exact h.1 hc
  · rw [h.2.1] at hc; exact absurd hc (by decide)

theorem replace_all_append (a b : Str) (c : Char) :
    replace_all (a ++ b) c = replace_all a c ++ replace_all b c := by
  simp [replace_all]

theorem replace_all_parentheses (Y : Str) (hY : ∀ c ∈ Y, isParenthesis c = true) :
    replace_all (replace_all Y '(') ')' = [] := by
  induction Y with
  | nil => rfl
  | cons c t ih =>
    have hc := hY c (List.mem_cons_self _ _)
    have ht := ih (fun x hx => hY x (List.mem_cons_of_mem _ hx))
    simp only [isParenthesis, Bool.or_eq_true, beq_iff_eq] at hc
    simp only [replace_all] at ht ⊢
    rcases hc with hc | hc
    · subst hc
      simpa [List.filter_cons] using ht
    · subst hc
      simpa [List.filter_cons] using ht

theorem cleaned_reference (N opening closing : Str) (hplain : ∀ c ∈ N, isPlain c = true)
    (ho : ∀ c ∈ opening, isParenthesis c = true) (hc : ∀ c ∈ closing, isParenthesis c = true) :
    replace_all (replace_all (opening ++ N ++ closing) '(') ')' = N := by
  rw [replace_all_append, replace_all_append, replace_all_append, replace_all_append,
    replace_all_parentheses opening ho, replace_all_parentheses closing hc,
    replace_all_plain N hplain]
  simp

theorem wellFormed_reference (N : Str) (modelObjects : List ModelObject)
    (opening closing : Str)
    (h : (Piece.reference opening closing).wellFormed N modelObjects = true) :
    (∀ c ∈ opening, isParenthesis c = true) ∧ (∀ c ∈ closing, isParenthesis c = true) := by
  simpa [Piece.wellFormed, List.all_eq_true] using h

theorem wellFormed_other (N : Str) (modelObjects : List ModelObject) (segment : Str)
    (h : (Piece.other segment).wellFormed N modelObjects = true) :
    (∀ c ∈ segment, isDelimiter c = false)
    ∧ (∀ mo ∈ modelObjects, mo.name ≠ some (replace_all (replace_all segment '(') ')'))
    ∧ find segment N = none := by
  simp only [Piece.wellFormed, Bool.and_eq_true, List.all_eq_true, Bool.not_eq_true',
    decide_eq_true_eq, Option.isNone_iff_eq_none] at h
  exact ⟨h.1.1, h.1.2, h.2⟩

theorem piece_step (modelObjects : List ModelObject) (mo : ModelObject) (N : Str)
    (hfirst : firstNamed N modelObjects = some mo) (hplain : ∀ c ∈ N, isPlain c = true)
    (hne : N ≠ []) (piece : Piece) (hwf : piece.wellFormed N modelObjects = true)
    (done tail : Str)
    (hdone : ∀ rest, find (done ++ rest) N = (find rest N).map (· + done.length)) :
    modelObjectLoop (replace_all (replace_all (piece.render N) '(') ')') modelObjects
        (done ++ (piece.render N ++ tail))
      = some (done ++ (piece.render mo.handle ++ tail)) := by
  cases piece with
  | other segment =>
    obtain ⟨_, hno, _⟩ := wellFormed_other N modelObjects segment hwf
    simp only [Piece.render]
    exact modelObjectLoop_no_match _ _ _ hno
  | reference opening closing =>
    obtain ⟨ho, hc⟩ := wellFormed_reference N modelObjects opening closing hwf
    simp only [Piece.render]
    rw [cleaned_reference N opening closing hplain ho hc,
      modelObjectLoop_firstNamed N modelObjects mo _ hfirst]
    have hfind : find (done ++ (opening ++ N ++ closing ++ tail)) N
        = some ((done ++ opening).length) := by
      have e : opening ++ N ++ closing ++ tail = opening ++ (N ++ (closing ++ tail)) := by
        simp
      rw [hdone, e,
        find_skip_chars N opening _ (fun c hc => plain_not_parenthesis N hplain c (ho c hc)) hne,
        find_self_append]
      simp only [Option.map_some', List.length_append, Option.some.injEq]
      omega
    have hrep := replace_at (done ++ opening) N (closing ++ tail) mo.handle
    have e1 : done ++ opening ++ N ++ (closing ++ tail)
        = done ++ (opening ++ N ++ closing ++ tail) := by simp
    have e2 : done ++ opening ++ mo.handle ++ (closing ++ tail)
        = done ++ (opening ++ mo.handle ++ closing ++ tail) := by simp
    rw [e1, e2] at hrep
    simp only [hfind, Option.bind, hrep]

theorem piece_done (modelObjects : List ModelObject) (mo : ModelObject) (N : Str)
    (hplain : ∀ c ∈ N, isPlain c = true) (hne : N ≠ []) (hNU : find mo.handle N = none)
    (piece : Piece) (hwf : piece.wellFormed N modelObjects = true)
    (d : Char) (hd : isDelimiter d = true) (done : Str)
    (hdone : ∀ rest, find (done ++ rest) N = (find rest N).map (· + done.length)) :
    ∀ rest, find ((done ++ (piece.render mo.handle ++ [d])) ++ rest) N
      = (find rest N).map (· + (done ++ (piece.render mo.handle ++ [d])).length) := by
  intro rest
  have hdN : d ∉ N := plain_not_delimiter N hplain d hd
  cases piece with
  | other segment =>
    obtain ⟨_, _, hseg⟩ := wellFormed_other N modelObjects segment hwf
    simp only [Piece.render]
    have e : done ++ (segment ++ [d]) ++ rest = done ++ (segment ++ d :: rest) := by simp
    rw [e, hdone, find_skip_block N segment rest d hseg hdN hne]
    cases find rest N with
    | none => rfl
    | some p =>
      simp only [Option.map_some', List.length_append, List.length_cons, List.length_nil,
        Option.some.injEq]
      omega
  | reference opening closing =>
    obtain ⟨ho, hc⟩ := wellFormed_reference N modelObjects opening closing hwf
    simp only [Piece.render]
    have e : done ++ (opening ++ mo.handle ++ closing ++ [d]) ++ rest
        = done ++ (opening ++ (mo.handle ++ (closing ++ d :: rest))) := by simp
    rw [e, hdone,
      find_skip_chars N opening _ (fun c hc => plain_not_parenthesis N hplain c (ho c hc)) hne,
      find_skip_block_chars N mo.handle closing rest d hNU
        (fun c hc1 => plain_not_parenthesis N hplain c (hc c hc1)) hdN hne]
    cases find rest N with
    | none => rfl
    | some p =>
      simp only [Option.map_some', List.length_append, List.length_cons, List.length_nil,
        Option.some.injEq]
      omega

theorem tokenLoop_renderLine (modelObjects : List ModelObject) (mo : ModelObject) (N : Str)
    (hfirst : firstNamed N modelObjects = some mo) (hplain : ∀ c ∈ N, isPlain c = true)
    (hne : N ≠ []) (hNU : find mo.handle N = none)
    (last : Piece) (hlast : last.wellFormed N modelObjects = true)
    (pieces : List (Piece × Char)) (done : Str)
    (hdelims : ∀ p ∈ pieces, isDelimiter p.2 = true)
    (hpieces : ∀ p ∈ pieces, p.1.wellFormed N modelObjects = true)
    (hdone : ∀ rest, find (done ++ rest) N = (find rest N).map (· + done.length)) :
    tokenLoop modelObjects (pieces.map (fun p => p.1.render N) ++ [last.render N])
        (done ++ renderLine N pieces last)
      = some (done ++ renderLine mo.handle pieces last) := by
  induction pieces generalizing done with
  | nil =>
    have hstep := piece_step modelObjects mo N hfirst hplain hne last hlast done [] hdone
    simp only [List.append_nil] at hstep
    simp only [List.map_nil, List.nil_append, tokenLoop, renderLine, hstep]
  | cons pd rest ih =>
    obtain ⟨piece, d⟩ := pd
    have hwf := hpieces (piece, d) (List.mem_cons_self _ _)
    have hd := hdelims (piece, d) (List.mem_cons_self _ _)
    have hstep := piece_step modelObjects mo N hfirst hplain hne piece hwf done
      (d :: renderLine N rest last) hdone
    have hnext := ih (done ++ (piece.render mo.handle ++ [d]))
      (fun p hp => hdelims p (List.mem_cons_of_mem _ hp))
      (fun p hp => hpieces p (List.mem_cons_of_mem _ hp))
      (piece_done modelObjects mo N hplain hne hNU piece hwf d hd done hdone)
    have e1 : done ++ (piece.render mo.handle ++ [d]) ++ renderLine N rest last
        = done ++ (piece.render mo.handle ++ d :: renderLine N rest last) := by simp
    have e2 : done ++ (piece.render mo.handle ++ [d]) ++ renderLine mo.handle rest last
        = done ++ (piece.render mo.handle ++ d :: renderLine mo.handle rest last) := by simp
    rw [e1, e2] at hnext
    simp only [List.map_cons, List.cons_append, tokenLoop, renderLine, hstep]
    exact hnext

theorem regex_replace_no_delimiter (s : Str) (h : ∀ c ∈ s, isDelimiter c = false) :
    regex_replace s = s := by
  induction s with
  | nil => rfl
  | cons c t ih =>
    have hc := h c (List.mem_cons_self _ _)
    have ht := ih (fun x hx => h x (List.mem_cons_of_mem _ hx))
    simp only [isDelimiter, Bool.or_eq_false_iff] at hc
    simp only [regex_replace, List.map_cons] at ht ⊢
    rw [ht]
    simp [hc.2]

theorem regex_replace_delimiter (d : Char) (rest : Str) (hd : isDelimiter d = true) :
    regex_replace (d :: rest) = ' ' :: regex_replace rest := by
  simp only [isDelimiter, Bool.or_eq_true, beq_iff_eq] at hd
  simp only [regex_replace, List.map_cons, List.cons.injEq, and_true]
  rcases hd with hd | hd
  · subst hd; decide
  · simp [hd]

theorem space_not_mem (s : Str) (h : ∀ c ∈ s, isDelimiter c = false) : ' ' ∉ s := by
  intro hmem
  have := h ' ' hmem
  exact absurd this (by decide)

theorem render_no_delimiter (N : Str) (modelObjects : List ModelObject)
    (hplain : ∀ c ∈ N, isPlain c = true) (piece : Piece)
    (hwf : piece.wellFormed N modelObjects = true) :
    ∀ c ∈ piece.render N, isDelimiter c = false := by
  have hN : ∀ c ∈ N, isDelimiter c = false := by
    intro c hc
    have h := (isPlain_iff c).1 (hplain c hc)
    simp [isDelimiter, h.1, h.2.1]
  have hpar : ∀ c, isParenthesis c = true → isDelimiter c = false := by
    intro c hc
    simp only [isParenthesis, Bool.or_eq_true, beq_iff_eq] at hc
    rcases hc with hc | hc <;> (subst hc; decide)
  cases piece with
  | other segment => exact (wellFormed_other N modelObjects segment hwf).1
  | reference opening closing =>
    obtain ⟨ho, hc⟩ := wellFormed_reference N modelObjects opening closing hwf
    intro c hmem
    simp only [Piece.render, List.mem_append] at hmem
    rcases hmem with (h | h) | h
    · exact hpar c (ho c h)
    · exact hN c h
    · exact hpar c (hc c h)

theorem segments_renderLine (N : Str) (modelObjects : List ModelObject)
    (hplain : ∀ c ∈ N, isPlain c = true)
    (last : Piece) (hlast : last.wellFormed N modelObjects = true)
    (pieces : List (Piece × Char))
    (hdelims : ∀ p ∈ pieces, isDelimiter p.2 = true)
    (hpieces : ∀ p ∈ pieces, p.1.wellFormed N modelObjects = true) :
    segments ' ' (regex_replace (renderLine N pieces last))
      = pieces.map (fun p => p.1.render N) ++ [last.render N] := by
  induction pieces with
  | nil =>
    have hno := render_no_delimiter N modelObjects hplain last hlast
    simp only [renderLine, List.map_nil, List.nil_append]
    rw [regex_replace_no_delimiter _ hno, segments_no_delimiter _ _ (space_not_mem _ hno)]
  | cons pd rest ih =>
    obtain ⟨piece, d⟩ := pd
    have hno := render_no_delimiter N modelObjects hplain piece
      (hpieces (piece, d) (List.mem_cons_self _ _))
    have hd := hdelims (piece, d) (List.mem_cons_self _ _)
    have hrest := ih (fun p hp => hdelims p (List.mem_cons_of_mem _ hp))
      (fun p hp => hpieces p (List.mem_cons_of_mem _ hp))
    simp only [renderLine, List.map_cons, List.cons_append]
    rw [regex_replace_append, regex_replace_no_delimiter _ hno,
      regex_replace_delimiter d _ hd,
      segments_append_delimiter _ _ _ (space_not_mem _ hno), hrest]

/-! ## The claims -/

/-- C1: a line none of whose tokens (operators blanked, split at single spaces,
parentheses removed) is the display name of a candidate leaves the token loop
character for character as it entered, and that very line is what the program loop
adds to the target program. -/
theorem line_unchanged_of_no_token_match (modelObjects : List ModelObject) (line : Str)
    (h : ∀ token ∈ cleanedTokens line, ∀ mo ∈ modelObjects, mo.name ≠ some token) :
    rewriteLine modelObjects line = some line
    ∧ ∀ (w : WorkspaceObject) (i : Nat) (rest : List Nat) (emsProgram : ModelObject),
        w.getExtensibleGroup i = some line →
        programLineLoop modelObjects w (i :: rest) emsProgram
          = programLineLoop modelObjects w rest (emsProgram.addLine line) := by
  have hline : rewriteLine modelObjects line = some line := by
    apply tokenLoop_no_match
    intro token htoken mo hmo
    exact h _ (List.mem_map_of_mem _ htoken) mo hmo
  refine ⟨hline, ?_⟩
  intro w i rest emsProgram hi
  simp only [programLineLoop, hi, hline]

theorem line_unchanged_of_no_token_match_witness :
    (∀ token ∈ cleanedTokens "IF (Temp > 20)".toList,
      ∀ mo ∈ [known .OS_EnergyManagementSystem_Sensor "Sensor1".toList "{id-A}".toList,
              known .OS_EnergyManagementSystem_Actuator "Actuator1".toList "{id-B}".toList],
        mo.name ≠ some token)
    ∧ rewriteLine
        [known .OS_EnergyManagementSystem_Sensor "Sensor1".toList "{id-A}".toList,
         known .OS_EnergyManagementSystem_Actuator "Actuator1".toList "{id-B}".toList]
        "IF (Temp > 20)".toList = some "IF (Temp > 20)".toList :=
  ⟨by decide, (line_unchanged_of_no_token_match _ _ (by decide)).1⟩

/-- C2 (the code at the failing input): with only an object named `X` known, the
tokens of the line `SetX X` are `SetX` and `X`, only the second is a display name,
and the line that is added is `SetU X`, not `SetX U`: the identifier lands inside
the longer word, at the first place where the text `X` occurs. -/
theorem setX_rewritten_inside_word :
    cleanedTokens "SetX X".toList = ["SetX".toList, "X".toList]
    ∧ rewriteLine [known .OS_EnergyManagementSystem_GlobalVariable "X".toList "U".toList]
        "SetX X".toList = some "SetU X".toList := by
  decide

/-- C3: for a record of the program kind with a name, whenever the call returns a
target program its lines are, one for one and in order, the rewritten forms of the
present lines of the record, and an absent line gives no target line; and the call
does return a target program when every present line has a rewritten form (no
replacement throws). -/
theorem target_lines_are_rewritten_present_lines
    (collaborator : WorkspaceObject → List ModelObject → List ModelObject)
    (newHandle : Str) (rt : ReverseTranslator) (s : Str) (programLine : List (Option Str)) :
    (∀ emsProgram rt1,
      translateEnergyManagementSystemProgram collaborator newHandle rt
          { type := .EnergyManagementSystem_Program, Name := some s, ProgramLine := programLine }
        = .returned (some emsProgram) rt1 →
      emsProgram.lines.length = (programLine.filter Option.isSome).length
      ∧ emsProgram.lines.map some
          = (presentLines
              { type := .EnergyManagementSystem_Program, Name := some s,
                ProgramLine := programLine }).map (rewriteLine (candidates collaborator rt)))
    ∧ ((∀ line ∈ presentLines
          { type := .EnergyManagementSystem_Program, Name := some s, ProgramLine := programLine },
        rewriteLine (candidates collaborator rt) line ≠ none) →
      ∃ emsProgram rt1,
        translateEnergyManagementSystemProgram collaborator newHandle rt
            { type := .EnergyManagementSystem_Program, Name := some s,
              ProgramLine := programLine }
          = .returned (some emsProgram) rt1) := by
  refine ⟨?_, ?_⟩
  · intro emsProgram rt1 hcall
    have hout := translate_returned_program collaborator newHandle rt s programLine
      emsProgram rt1 hcall
    refine ⟨?_, hout.symm⟩
    have hlen := congrArg List.length hout
    simp only [List.length_map] at hlen
    rw [← hlen, List.reduceOption_length_eq]
  intro h
  simp only [presentLines] at h ⊢
  obtain ⟨out, hout⟩ : ∃ out : List Str,
      programLine.reduceOption.map (rewriteLine (candidates collaborator rt)) = out.map some := by
    generalize programLine.reduceOption = present at h
    induction present with
    | nil => exact ⟨[], rfl⟩
    | cons line rest ih =>
      obtain ⟨t, ht⟩ := ih (fun l hl => h l (List.mem_cons_of_mem _ hl))
      cases hl : rewriteLine (candidates collaborator rt) line with
      | none => exact absurd hl (h line (List.mem_cons_self _ _))
      | some nl => exact ⟨nl :: t, by simp [hl, ht]⟩
  exact ⟨_, _, translate_of_all_rewritten collaborator newHandle rt s programLine out hout⟩

theorem target_lines_are_rewritten_present_lines_witness :
    (∀ line ∈ presentLines
        { type := .EnergyManagementSystem_Program, Name := some "P".toList,
          ProgramLine := [some "SET Temp = Sensor1".toList, none, some "ENDIF".toList] },
      rewriteLine
        (candidates sampleCollaborator
          { m_workspace := [{ type := .EnergyManagementSystem_Sensor,
                              Name := some "Sensor1".toList, ProgramLine := [] }],
            m_model := [], translated := [], log := [] }) line ≠ none)
    ∧ ∃ emsProgram rt1,
      translateEnergyManagementSystemProgram sampleCollaborator "{id-P}".toList
          { m_workspace := [{ type := .EnergyManagementSystem_Sensor,
                              Name := some "Sensor1".toList, ProgramLine := [] }],
            m_model := [], translated := [], log := [] }
          { type := .EnergyManagementSystem_Program, Name := some "P".toList,
            ProgramLine := [some "SET Temp = Sensor1".toList, none, some "ENDIF".toList] }
        = .returned (some emsProgram) rt1
      ∧ emsProgram.lines.length = 2
      ∧ emsProgram.lines.map some
          = [some "SET Temp = {id-G}".toList, some "ENDIF".toList] := by
  have hyp : ∀ line ∈ presentLines
        { type := .EnergyManagementSystem_Program, Name := some "P".toList,
          ProgramLine := [some "SET Temp = Sensor1".toList, none, some "ENDIF".toList] },
      rewriteLine
        (candidates sampleCollaborator
          { m_workspace := [{ type := .EnergyManagementSystem_Sensor,
                              Name := some "Sensor1".toList, ProgramLine := [] }],
            m_model := [], translated := [], log := [] }) line ≠ none := by
    decide
  have hthm := target_lines_are_rewritten_present_lines sampleCollaborator "{id-P}".toList
    { m_workspace := [{ type := .EnergyManagementSystem_Sensor,
                        Name := some "Sensor1".toList, ProgramLine := [] }],
      m_model := [], translated := [], log := [] }
    "P".toList [some "SET Temp = Sensor1".toList, none, some "ENDIF".toList]
  obtain ⟨emsProgram, rt1, hcall⟩ := hthm.2 hyp
  obtain ⟨hlen, hlines⟩ := hthm.1 emsProgram rt1 hcall
  refine ⟨hyp, emsProgram, rt1, hcall, ?_, ?_⟩
  · rw [hlen]; decide
  · rw [hlines]; decide

/-- C4 (the code at the failing input): for the program record named `P` with the
one line `a(b`, and a model that holds a global variable named `ab`, the call
neither returns `boost::none` nor a target program: the cleaned token `ab` equals
the name, its text is not found in the line, and `std::out_of_range` leaves the
call, with the empty program object already in the model. -/
theorem interior_parenthesis_throws :
    translateEnergyManagementSystemProgram sampleCollaborator "{id-P}".toList
        (translatorWith
          [known .OS_EnergyManagementSystem_GlobalVariable "ab".toList "{id-1}".toList])
        (programRecord "P".toList ["a(b".toList])
      = .out_of_range
          { m_workspace := [],
            m_model :=
              [known .OS_EnergyManagementSystem_GlobalVariable "ab".toList "{id-1}".toList,
               { iddObjectType := .OS_EnergyManagementSystem_Program,
                 handle := "{id-P}".toList, name := some "P".toList, lines := [] }],
            translated := [], log := [] } := by
  decide

/-- C5: when the record is not of the program kind, or has no name, the call returns
no result and leaves the target model, the document and the list of records handed
to the collaborator as they were: nothing is created and no prerequisite translation
is triggered. Only the log grows. -/
theorem validation_failure_leaves_model
    (collaborator : WorkspaceObject → List ModelObject → List ModelObject)
    (newHandle : Str) (rt : ReverseTranslator) (workspaceObject : WorkspaceObject)
    (h : workspaceObject.type ≠ .EnergyManagementSystem_Program ∨ workspaceObject.Name = none) :
    ∃ rt1,
      translateEnergyManagementSystemProgram collaborator newHandle rt workspaceObject
        = .returned none rt1
      ∧ rt1.m_model = rt.m_model
      ∧ rt1.translated = rt.translated
      ∧ rt1.m_workspace = rt.m_workspace := by
  by_cases hk : workspaceObject.type = .EnergyManagementSystem_Program
  · rcases h with h | h
    · exact absurd hk h
    · exact ⟨{ rt with log := rt.log ++
          ["WorkspaceObject EnergyManagementSystem_Program has no Name"] },
        by simp [translateEnergyManagementSystemProgram, hk, h], rfl, rfl, rfl⟩
  · exact ⟨{ rt with log := rt.log ++
        ["WorkspaceObject is not IddObjectType: EnergyManagementSystem_Program"] },
      by simp [translateEnergyManagementSystemProgram, hk], rfl, rfl, rfl⟩

theorem validation_failure_leaves_model_witness :
    ((WorkspaceObject.mk .EnergyManagementSystem_Program none
        [some "SET a = Sensor1".toList]).type ≠ .EnergyManagementSystem_Program
      ∨ (WorkspaceObject.mk .EnergyManagementSystem_Program none
        [some "SET a = Sensor1".toList]).Name = none)
    ∧ ∃ rt1,
      translateEnergyManagementSystemProgram sampleCollaborator "{id-P}".toList
          { m_workspace := [{ type := .EnergyManagementSystem_Sensor,
                              Name := some "Sensor1".toList, ProgramLine := [] }],
            m_model := [], translated := [], log := [] }
          (WorkspaceObject.mk .EnergyManagementSystem_Program none
            [some "SET a = Sensor1".toList])
        = .returned none rt1
      ∧ rt1.m_model = []
      ∧ rt1.translated = []
      ∧ rt1.m_workspace = [{ type := .EnergyManagementSystem_Sensor,
                             Name := some "Sensor1".toList, ProgramLine := [] }] :=
  ⟨by decide, validation_failure_leaves_model _ _ _ _ (by decide)⟩

/-- C6 (counterexample): for the four lines of the scenario and the known objects
`Sensor1` and `Actuator1`, the lines of the returned program are not those of the
claim: no call returns a program whose second line is `IF Temp  20`. -/
theorem scenario_lines_not_blanked :
    ¬ ∃ emsProgram rt1,
      translateEnergyManagementSystemProgram sampleCollaborator "{id-P}".toList
          (translatorWith
            [known .OS_EnergyManagementSystem_Sensor "Sensor1".toList "{id-A}".toList,
             known .OS_EnergyManagementSystem_Actuator "Actuator1".toList "{id-B}".toList])
          (programRecord "P".toList
            ["SET Temp = Sensor1".toList, "IF Temp > 20".toList,
             "SET Actuator1 = 1".toList, "ENDIF".toList])
        = .returned (some emsProgram) rt1
      ∧ emsProgram.lines
        = ["SET Temp = {id-A}".toList, "IF Temp  20".toList,
           "SET {id-B} = 1".toList, "ENDIF".toList] := by
  rintro ⟨emsProgram, rt1, hcall, hlines⟩
  have hrun :
      translateEnergyManagementSystemProgram sampleCollaborator "{id-P}".toList
          (translatorWith
            [known .OS_EnergyManagementSystem_Sensor "Sensor1".toList "{id-A}".toList,
             known .OS_EnergyManagementSystem_Actuator "Actuator1".toList "{id-B}".toList])
          (programRecord "P".toList
            ["SET Temp = Sensor1".toList, "IF Temp > 20".toList,
             "SET Actuator1 = 1".toList, "ENDIF".toList])
        = .returned
            (some { iddObjectType := .OS_EnergyManagementSystem_Program,
                    handle := "{id-P}".toList, name := some "P".toList,
                    lines := ["SET Temp = {id-A}".toList, "IF Temp > 20".toList,
                              "SET {id-B} = 1".toList, "ENDIF".toList] })
            { m_workspace := [],
              m_model :=
                [known .OS_EnergyManagementSystem_Sensor "Sensor1".toList "{id-A}".toList,
                 known .OS_EnergyManagementSystem_Actuator "Actuator1".toList "{id-B}".toList,
                 { iddObjectType := .OS_EnergyManagementSystem_Program,
                   handle := "{id-P}".toList, name := some "P".toList,
                   lines := ["SET Temp = {id-A}".toList, "IF Temp > 20".toList,
                             "SET {id-B} = 1".toList, "ENDIF".toList] }],
              translated := [], log := [] } := by
    decide
  rw [hrun] at hcall
  injection hcall with h1 h2
  injection h1 with h1
  subst h1
  revert hlines
  decide

/-- C6 (amended): for the four lines of the scenario and the known objects `Sensor1`
and `Actuator1`, the call returns a program whose lines are
`SET Temp = {id-A}`, `IF Temp > 20`, `SET {id-B} = 1`, `ENDIF`: the two names are
replaced and the operator `>` of the second line is kept. -/
theorem scenario_lines_keep_operator :
    ∃ emsProgram rt1,
      translateEnergyManagementSystemProgram sampleCollaborator "{id-P}".toList
          (translatorWith
            [known .OS_EnergyManagementSystem_Sensor "Sensor1".toList "{id-A}".toList,
             known .OS_EnergyManagementSystem_Actuator "Actuator1".toList "{id-B}".toList])
          (programRecord "P".toList
            ["SET Temp = Sensor1".toList, "IF Temp > 20".toList,
             "SET Actuator1 = 1".toList, "ENDIF".toList])
        = .returned (some emsProgram) rt1
      ∧ emsProgram.lines
        = ["SET Temp = {id-A}".toList, "IF Temp > 20".toList,
           "SET {id-B} = 1".toList, "ENDIF".toList] :=
  ⟨{ iddObjectType := .OS_EnergyManagementSystem_Program,
     handle := "{id-P}".toList, name := some "P".toList,
     lines := ["SET Temp = {id-A}".toList, "IF Temp > 20".toList,
               "SET {id-B} = 1".toList, "ENDIF".toList] },
   { m_workspace := [],
     m_model :=
       [known .OS_EnergyManagementSystem_Sensor "Sensor1".toList "{id-A}".toList,
        known .OS_EnergyManagementSystem_Actuator "Actuator1".toList "{id-B}".toList,
        { iddObjectType := .OS_EnergyManagementSystem_Program,
          handle := "{id-P}".toList, name := some "P".toList,
          lines := ["SET Temp = {id-A}".toList, "IF Temp > 20".toList,
                    "SET {id-B} = 1".toList, "ENDIF".toList] }],
     translated := [], log := [] },
   by decide, rfl⟩

/-- C7 (counterexample): with no candidate named `X1` or `3.2` and the known object
named `X2` with identifier `{id-2}`, the line `X1 = X2 + 3.2` is not always
rewritten to `X1 = {id-2} + 3.2`: when another object named `X2` stands earlier in
the list its identifier is taken, and when an object whose name is the empty string
is known its identifier is put in front of the line for each empty token. -/
theorem operand_counterexample :
    (known .OS_EnergyManagementSystem_Sensor "X2".toList "{id-2}".toList
        ∈ [known .OS_EnergyManagementSystem_GlobalVariable "X2".toList "{id-1}".toList,
           known .OS_EnergyManagementSystem_Sensor "X2".toList "{id-2}".toList]
      ∧ (∀ c ∈ "X2".toList, isPlain c = true)
      ∧ find "X1 = ".toList "X2".toList = none
      ∧ (∀ m ∈ [known .OS_EnergyManagementSystem_GlobalVariable "X2".toList "{id-1}".toList,
                known .OS_EnergyManagementSystem_Sensor "X2".toList "{id-2}".toList],
          m.name ≠ some "X1".toList ∧ m.name ≠ some "3.2".toList)
      ∧ rewriteLine
          [known .OS_EnergyManagementSystem_GlobalVariable "X2".toList "{id-1}".toList,
           known .OS_EnergyManagementSystem_Sensor "X2".toList "{id-2}".toList]
          "X1 = X2 + 3.2".toList = some "X1 = {id-1} + 3.2".toList
      ∧ rewriteLine
          [known .OS_EnergyManagementSystem_GlobalVariable "X2".toList "{id-1}".toList,
           known .OS_EnergyManagementSystem_Sensor "X2".toList "{id-2}".toList]
          "X1 = X2 + 3.2".toList ≠ some "X1 = {id-2} + 3.2".toList)
    ∧ (known .OS_EnergyManagementSystem_Sensor "X2".toList "{id-2}".toList
        ∈ [known .OS_EnergyManagementSystem_GlobalVariable [] "{id-0}".toList,
           known .OS_EnergyManagementSystem_Sensor "X2".toList "{id-2}".toList]
      ∧ (∀ m ∈ [known .OS_EnergyManagementSystem_GlobalVariable [] "{id-0}".toList,
                known .OS_EnergyManagementSystem_Sensor "X2".toList "{id-2}".toList],
          m.name ≠ some "X1".toList ∧ m.name ≠ some "3.2".toList)
      ∧ rewriteLine
          [known .OS_EnergyManagementSystem_GlobalVariable [] "{id-0}".toList,
           known .OS_EnergyManagementSystem_Sensor "X2".toList "{id-2}".toList]
          "X1 = X2 + 3.2".toList = some "{id-0}{id-0}{id-0}{id-0}X1 = {id-2} + 3.2".toList
      ∧ rewriteLine
          [known .OS_EnergyManagementSystem_GlobalVariable [] "{id-0}".toList,
           known .OS_EnergyManagementSystem_Sensor "X2".toList "{id-2}".toList]
          "X1 = X2 + 3.2".toList ≠ some "X1 = {id-2} + 3.2".toList) := by
  decide

/-- C7 (amended): let `N` be non-empty, without space, operator character or
parenthesis, and not occurring in `X1 = `; let no candidate be named `X1`, `3.2` or
the empty string, and let `mo` be the first candidate named `N`. Then the line
`X1 = N + 3.2` is rewritten to `X1 = U + 3.2` with `U` the identifier of `mo`:
operators and spacing are kept. -/
theorem operand_between_operators_replaced (modelObjects : List ModelObject)
    (mo : ModelObject) (N : Str)
    (hfirst : firstNamed N modelObjects = some mo)
    (hne : N ≠ []) (hplain : ∀ c ∈ N, isPlain c = true)
    (hocc : find "X1 = ".toList N = none)
    (hX1 : ∀ m ∈ modelObjects, m.name ≠ some "X1".toList)
    (h32 : ∀ m ∈ modelObjects, m.name ≠ some "3.2".toList)
    (hempty : ∀ m ∈ modelObjects, m.name ≠ some []) :
    rewriteLine modelObjects ("X1 = ".toList ++ N ++ " + 3.2".toList)
      = some ("X1 = ".toList ++ mo.handle ++ " + 3.2".toList) := by
  have hsp := (plain_not_mem N hplain).1
  have hfind : find ("X1 = ".toList ++ N ++ " + 3.2".toList) N = some 5 := by
    have := find_behind_delimiter "X1 =".toList N " + 3.2".toList ' ' hsp hne hocc
    simpa using this
  have hrep : replace ("X1 = ".toList ++ N ++ " + 3.2".toList) 5 N.length mo.handle
      = some ("X1 = ".toList ++ mo.handle ++ " + 3.2".toList) :=
    replace_at "X1 = ".toList N " + 3.2".toList mo.handle
  have c1 : replace_all (replace_all "X1".toList '(') ')' = "X1".toList := by decide
  have c2 : replace_all (replace_all ([] : Str) '(') ')' = [] := by decide
  have c3 : replace_all (replace_all "3.2".toList '(') ')' = "3.2".toList := by decide
  unfold rewriteLine
  rw [tokens_operand N hplain]
  simp only [tokenLoop, c1, c2, c3, replace_all_plain N hplain,
    modelObjectLoop_no_match _ _ _ hX1, modelObjectLoop_no_match _ _ _ h32,
    modelObjectLoop_no_match _ _ _ hempty,
    modelObjectLoop_firstNamed N modelObjects mo _ hfirst, hfind, Option.bind, hrep]

theorem operand_between_operators_replaced_witness :
    (firstNamed "X2".toList
        [known .OS_EnergyManagementSystem_Actuator "Y".toList "{id-1}".toList,
         known .OS_EnergyManagementSystem_Sensor "X2".toList "{id-2}".toList]
      = some (known .OS_EnergyManagementSystem_Sensor "X2".toList "{id-2}".toList))
    ∧ rewriteLine
        [known .OS_EnergyManagementSystem_Actuator "Y".toList "{id-1}".toList,
         known .OS_EnergyManagementSystem_Sensor "X2".toList "{id-2}".toList]
        ("X1 = ".toList ++ "X2".toList ++ " + 3.2".toList)
      = some ("X1 = ".toList
          ++ (known .OS_EnergyManagementSystem_Sensor "X2".toList "{id-2}".toList).handle
          ++ " + 3.2".toList) :=
  ⟨by decide,
   operand_between_operators_replaced _ _ _ (by decide) (by decide) (by decide) (by decide)
     (by decide) (by decide) (by decide)⟩

/-- C8 (counterexample): two known objects are named `SetX`; for the second, with
identifier `{id-2}`, the line `(SetX)` is rewritten to `({id-1})`, with the
identifier of the first, and not to `({id-2})`. -/
theorem parenthesised_counterexample :
    known .OS_EnergyManagementSystem_Subroutine "SetX".toList "{id-2}".toList
        ∈ [known .OS_EnergyManagementSystem_GlobalVariable "SetX".toList "{id-1}".toList,
           known .OS_EnergyManagementSystem_Subroutine "SetX".toList "{id-2}".toList]
    ∧ (∀ c ∈ "SetX".toList, isPlain c = true)
    ∧ rewriteLine
        [known .OS_EnergyManagementSystem_GlobalVariable "SetX".toList "{id-1}".toList,
         known .OS_EnergyManagementSystem_Subroutine "SetX".toList "{id-2}".toList]
        "(SetX)".toList = some "({id-1})".toList
    ∧ rewriteLine
        [known .OS_EnergyManagementSystem_GlobalVariable "SetX".toList "{id-1}".toList,
         known .OS_EnergyManagementSystem_Subroutine "SetX".toList "{id-2}".toList]
        "(SetX)".toList ≠ some "({id-2})".toList := by
  decide

/-- C8 (amended): let `N` be non-empty, without space, operator character or
parenthesis, and let `mo` be the first candidate named `N`. Then the line `(N)` is
rewritten to `(U)` with `U` the identifier of `mo`: the parentheses are removed
from the token that is compared, not from the line. -/
theorem parenthesised_name_replaced (modelObjects : List ModelObject)
    (mo : ModelObject) (N : Str)
    (hfirst : firstNamed N modelObjects = some mo)
    (hne : N ≠ []) (hplain : ∀ c ∈ N, isPlain c = true) :
    rewriteLine modelObjects ("(".toList ++ N ++ ")".toList)
      = some ("(".toList ++ mo.handle ++ ")".toList) := by
  have hpar := (plain_not_mem N hplain).2
  have hfind : find ("(".toList ++ N ++ ")".toList) N = some 1 := by
    have := find_behind_delimiter [] N ")".toList '(' hpar.1 hne
      (find_singleton_none N '(' hpar.1 hne)
    simpa using this
  have hrep : replace ("(".toList ++ N ++ ")".toList) 1 N.length mo.handle
      = some ("(".toList ++ mo.handle ++ ")".toList) :=
    replace_at "(".toList N ")".toList mo.handle
  have hclean : replace_all (replace_all ("(".toList ++ N ++ ")".toList) '(') ')' = N := by
    have h1 : replace_all ("(".toList ++ N ++ ")".toList) '(' = N ++ ")".toList := by
      have e : replace_all N '(' = N := by
        unfold replace_all
        rw [List.filter_eq_self]
        intro c hc
        simpa using ((isPlain_iff c).1 (hplain c hc)).2.2.1
      unfold replace_all at e ⊢
      rw [List.filter_append, List.filter_append, e]
      rfl
    have h2 : replace_all (N ++ ")".toList) ')' = N := by
      have e : replace_all N ')' = N := by
        unfold replace_all
        rw [List.filter_eq_self]
        intro c hc
        simpa using ((isPlain_iff c).1 (hplain c hc)).2.2.2
      unfold replace_all at e ⊢
      rw [List.filter_append, e]
      simp
    rw [h1, h2]
  unfold rewriteLine
  rw [tokens_parenthesised N hplain]
  simp only [tokenLoop, hclean, modelObjectLoop_firstNamed N modelObjects mo _ hfirst, hfind,
    Option.bind, hrep]

theorem parenthesised_name_replaced_witness :
    (firstNamed "SetX".toList
        [known .OS_EnergyManagementSystem_Subroutine "SetX".toList "{id-1}".toList]
      = some (known .OS_EnergyManagementSystem_Subroutine "SetX".toList "{id-1}".toList))
    ∧ rewriteLine
        [known .OS_EnergyManagementSystem_Subroutine "SetX".toList "{id-1}".toList]
        ("(".toList ++ "SetX".toList ++ ")".toList)
      = some ("(".toList
          ++ (known .OS_EnergyManagementSystem_Subroutine "SetX".toList "{id-1}".toList).handle
          ++ ")".toList) :=
  ⟨by decide, parenthesised_name_replaced _ _ _ (by decide) (by decide) (by decide)⟩

/-- C9 (the code at the failing input): the only candidate is named `X` and has the
identifier `{id-1}`; the name equals neither the identifier nor one of its tokens.
The line `SetX X` is rewritten to `Set{id-1} X`, and rewriting that line finds a
further match and gives `Set{id-1} {id-1}`: the rewrite is not idempotent. -/
theorem rewrite_twice_differs :
    (∀ mo ∈ [known .OS_EnergyManagementSystem_GlobalVariable "X".toList "{id-1}".toList],
      ∀ m ∈ [known .OS_EnergyManagementSystem_GlobalVariable "X".toList "{id-1}".toList],
        mo.name ≠ some m.handle ∧ ∀ token ∈ cleanedTokens m.handle, mo.name ≠ some token)
    ∧ rewriteLine [known .OS_EnergyManagementSystem_GlobalVariable "X".toList "{id-1}".toList]
        "SetX X".toList = some "Set{id-1} X".toList
    ∧ rewriteLine [known .OS_EnergyManagementSystem_GlobalVariable "X".toList "{id-1}".toList]
        "Set{id-1} X".toList = some "Set{id-1} {id-1}".toList := by
  decide

/-- C10 (counterexample): a program record whose name is present and is the empty
string is not rejected: the call returns a target program with the empty name, and
the program object is in the target model afterwards. -/
theorem empty_name_counterexample :
    translateEnergyManagementSystemProgram sampleCollaborator "{id-P}".toList
        (translatorWith []) (programRecord [] ["ENDIF".toList])
      = .returned
          (some { iddObjectType := .OS_EnergyManagementSystem_Program,
                  handle := "{id-P}".toList, name := some [], lines := ["ENDIF".toList] })
          { m_workspace := [],
            m_model := [{ iddObjectType := .OS_EnergyManagementSystem_Program,
                          handle := "{id-P}".toList, name := some [],
                          lines := ["ENDIF".toList] }],
            translated := [], log := [] } := by
  decide

/-- C10 (amended): validation requires a present name, not a non-empty one. For
every record of the program kind whose name is present and is the empty string the
call does not end with no result: the prerequisite loop runs, a program object with
the empty name and the new handle is put into the target model, and the call
returns it, or `std::out_of_range` leaves the call. -/
theorem empty_name_passes_validation
    (collaborator : WorkspaceObject → List ModelObject → List ModelObject)
    (newHandle : Str) (rt : ReverseTranslator) (programLine : List (Option Str)) :
    ∃ emsProgram rt1,
      (translateEnergyManagementSystemProgram collaborator newHandle rt
            { type := .EnergyManagementSystem_Program, Name := some [],
              ProgramLine := programLine }
          = .returned (some emsProgram) rt1
        ∨ translateEnergyManagementSystemProgram collaborator newHandle rt
            { type := .EnergyManagementSystem_Program, Name := some [],
              ProgramLine := programLine }
          = .out_of_range rt1)
      ∧ emsProgram.name = some []
      ∧ emsProgram.handle = newHandle
      ∧ emsProgram.iddObjectType = .OS_EnergyManagementSystem_Program
      ∧ rt1.m_model = (prerequisiteLoop collaborator rt.m_workspace rt).m_model ++ [emsProgram]
      ∧ rt1.translated = (prerequisiteLoop collaborator rt.m_workspace rt).translated := by
  have hkeep := programLineLoop_keeps
    (collectModelObjects ((prerequisiteLoop collaborator rt.m_workspace rt).m_model ++
      [{ iddObjectType := .OS_EnergyManagementSystem_Program, handle := newHandle,
         name := some [], lines := [] }]))
    { type := .EnergyManagementSystem_Program, Name := some [], ProgramLine := programLine }
    (List.range programLine.length)
    { iddObjectType := .OS_EnergyManagementSystem_Program, handle := newHandle,
      name := some [], lines := [] }
  simp only [translateEnergyManagementSystemProgram, ne_eq, not_true_eq_false, if_false,
    WorkspaceObject.numExtensibleGroups]
  generalize programLineLoop _ _ _ _ = result at hkeep ⊢
  obtain ⟨emsProgram1, finished⟩ := result
  cases finished with
  | true => exact ⟨emsProgram1, _, Or.inl rfl, hkeep.1, hkeep.2.1, hkeep.2.2, rfl, rfl⟩
  | false => exact ⟨emsProgram1, _, Or.inr rfl, hkeep.1, hkeep.2.1, hkeep.2.2, rfl, rfl⟩

/-- C11: the loop over the candidates resolves a cleaned token to the first candidate
whose name is set and equals the token, character for character. When no candidate
qualifies the line is left as it is; otherwise the one substitution that is made
uses the handle of the first qualifying candidate, whatever candidates follow it; a
candidate without a name is passed over. -/
theorem first_named_candidate_resolves (token : Str) (before : List ModelObject)
    (mo : ModelObject) (after : List ModelObject) (newline : Str) :
    ((∀ m ∈ before, m.name ≠ some token) →
      modelObjectLoop token before newline = some newline)
    ∧ ((∀ m ∈ before, m.name ≠ some token) → mo.name = some token →
      modelObjectLoop token (before ++ mo :: after) newline
        = (find newline token).bind (fun pos => replace newline pos token.length mo.handle))
    ∧ (mo.name = none →
      modelObjectLoop token (mo :: after) newline = modelObjectLoop token after newline) := by
  refine ⟨fun h => modelObjectLoop_no_match token before newline h, ?_, ?_⟩
  · intro hbefore hmo
    apply modelObjectLoop_firstNamed
    induction before with
    | nil => simp [firstNamed, List.find?, hmo]
    | cons b rest ih =>
      have hb : b.name ≠ some token := hbefore b (List.mem_cons_self _ _)
      have := ih (fun m hm => hbefore m (List.mem_cons_of_mem _ hm))
      simpa [firstNamed, List.find?, hb] using this
  · intro hnone
    simp [modelObjectLoop, hnone]

theorem first_named_candidate_resolves_witness :
    (∀ m ∈ [({ iddObjectType := .OS_EnergyManagementSystem_Sensor, handle := "{id-0}".toList,
               name := none, lines := [] } : ModelObject),
            known .OS_EnergyManagementSystem_Sensor "x2".toList "{id-1}".toList,
            known .OS_EnergyManagementSystem_Sensor " X2".toList "{id-4}".toList],
        m.name ≠ some "X2".toList)
    ∧ (known .OS_EnergyManagementSystem_Actuator "X2".toList "{id-2}".toList).name
        = some "X2".toList
    ∧ modelObjectLoop "X2".toList
        ([({ iddObjectType := .OS_EnergyManagementSystem_Sensor, handle := "{id-0}".toList,
             name := none, lines := [] } : ModelObject),
          known .OS_EnergyManagementSystem_Sensor "x2".toList "{id-1}".toList,
          known .OS_EnergyManagementSystem_Sensor " X2".toList "{id-4}".toList]
          ++ known .OS_EnergyManagementSystem_Actuator "X2".toList "{id-2}".toList
            :: [known .OS_EnergyManagementSystem_GlobalVariable "X2".toList "{id-3}".toList])
        "SET y = X2".toList
      = (find "SET y = X2".toList "X2".toList).bind
          (fun pos => replace "SET y = X2".toList pos "X2".toList.length
            (known .OS_EnergyManagementSystem_Actuator "X2".toList "{id-2}".toList).handle)
    ∧ modelObjectLoop "X2".toList
        ([({ iddObjectType := .OS_EnergyManagementSystem_Sensor, handle := "{id-0}".toList,
             name := none, lines := [] } : ModelObject),
          known .OS_EnergyManagementSystem_Sensor "x2".toList "{id-1}".toList,
          known .OS_EnergyManagementSystem_Sensor " X2".toList "{id-4}".toList]
          ++ known .OS_EnergyManagementSystem_Actuator "X2".toList "{id-2}".toList
            :: [known .OS_EnergyManagementSystem_GlobalVariable "X2".toList "{id-3}".toList])
        "SET y = X2".toList
      = some "SET y = {id-2}".toList :=
  ⟨by decide, by decide,
   (first_named_candidate_resolves _ _ _ _ _).2.1 (by decide) (by decide), by decide⟩

/-- C15 (the code at the failing input): the line `a = b` has two empty tokens; when
an object whose name is the empty string is known, each of them matches it, `find`
gives position 0, and the handle is put in front of the line twice. -/
theorem empty_token_matches_empty_name :
    cleanedTokens "a = b".toList = ["a".toList, [], [], "b".toList]
    ∧ find "a = b".toList [] = some 0
    ∧ rewriteLine [known .OS_EnergyManagementSystem_GlobalVariable [] "{id-0}".toList]
        "a = b".toList = some "{id-0}{id-0}a = b".toList := by
  decide

/-- C16 (the code at the failing input): the segment `a(b` is cleaned to `ab`, which
is the name of a known object, but the text `ab` does not occur in the line `a(b`:
`find` gives `npos` and `replace` throws. The same happens in the line `a(b ab`
after the first substitution has used up the only occurrence of `ab`. -/
theorem search_fails_after_cleaning :
    cleanedTokens "a(b".toList = ["ab".toList]
    ∧ find "a(b".toList "ab".toList = none
    ∧ rewriteLine [known .OS_EnergyManagementSystem_GlobalVariable "ab".toList "{id-1}".toList]
        "a(b".toList = none
    ∧ modelObjectLoop "ab".toList
        [known .OS_EnergyManagementSystem_GlobalVariable "ab".toList "{id-1}".toList]
        "a(b ab".toList = some "a(b {id-1}".toList
    ∧ find "a(b {id-1}".toList "ab".toList = none
    ∧ rewriteLine [known .OS_EnergyManagementSystem_GlobalVariable "ab".toList "{id-1}".toList]
        "a(b ab".toList = none := by
  decide

/-- C14: for every record of the program kind with a name, the records of the
document that are of one of the eight referenceable kinds, and no others, are handed
to the collaborator in document order; the program object is put into the model
behind what the collaborator produced; and the candidate list, which every line is
rewritten against, is collected from the model after the collaborator has translated
all of them, wherever in the document they stand. -/
theorem prerequisites_translated_first
    (collaborator : WorkspaceObject → List ModelObject → List ModelObject)
    (newHandle : Str) (rt : ReverseTranslator) (s : Str) (programLine : List (Option Str)) :
    ∃ emsProgram rt1,
      (translateEnergyManagementSystemProgram collaborator newHandle rt
            { type := .EnergyManagementSystem_Program, Name := some s,
              ProgramLine := programLine }
          = .returned (some emsProgram) rt1
        ∨ translateEnergyManagementSystemProgram collaborator newHandle rt
            { type := .EnergyManagementSystem_Program, Name := some s,
              ProgramLine := programLine }
          = .out_of_range rt1)
      ∧ rt1.translated = rt.translated ++ referenceableRecords rt.m_workspace
      ∧ rt1.m_model
          = translateAll collaborator (referenceableRecords rt.m_workspace) rt.m_model
              ++ [emsProgram]
      ∧ emsProgram.handle = newHandle
      ∧ candidates collaborator rt
          = collectModelObjects
              (translateAll collaborator (referenceableRecords rt.m_workspace) rt.m_model)
      ∧ (∀ emsProgram2 rt2,
          translateEnergyManagementSystemProgram collaborator newHandle rt
              { type := .EnergyManagementSystem_Program, Name := some s,
                ProgramLine := programLine }
            = .returned (some emsProgram2) rt2 →
          emsProgram2.lines.map some
            = programLine.reduceOption.map
                (rewriteLine (collectModelObjects
                  (translateAll collaborator (referenceableRecords rt.m_workspace)
                    rt.m_model)))) := by
  have hcand : candidates collaborator rt
      = collectModelObjects
          (translateAll collaborator (referenceableRecords rt.m_workspace) rt.m_model) := by
    simp [candidates, prerequisiteLoop_eq]
  have hkeep := programLineLoop_keeps
    (collectModelObjects ((prerequisiteLoop collaborator rt.m_workspace rt).m_model ++
      [{ iddObjectType := .OS_EnergyManagementSystem_Program, handle := newHandle,
         name := some s, lines := [] }]))
    { type := .EnergyManagementSystem_Program, Name := some s, ProgramLine := programLine }
    (List.range programLine.length)
    { iddObjectType := .OS_EnergyManagementSystem_Program, handle := newHandle,
      name := some s, lines := [] }
  have hlines : ∀ emsProgram2 rt2,
      translateEnergyManagementSystemProgram collaborator newHandle rt
          { type := .EnergyManagementSystem_Program, Name := some s,
            ProgramLine := programLine }
        = .returned (some emsProgram2) rt2 →
      emsProgram2.lines.map some
        = programLine.reduceOption.map
            (rewriteLine (collectModelObjects
              (translateAll collaborator (referenceableRecords rt.m_workspace)
                rt.m_model))) := by
    intro emsProgram2 rt2 hcall
    rw [← hcand]
    exact (translate_returned_program collaborator newHandle rt s programLine
      emsProgram2 rt2 hcall).symm
  simp only [translateEnergyManagementSystemProgram, ne_eq, not_true_eq_false, if_false,
    WorkspaceObject.numExtensibleGroups] at hlines ⊢
  generalize programLineLoop _ _ _ _ = result at hkeep hlines ⊢
  obtain ⟨emsProgram1, finished⟩ := result
  cases finished with
  | true =>
    exact ⟨emsProgram1, _, Or.inl rfl, by simp [prerequisiteLoop_eq],
      by simp [prerequisiteLoop_eq], hkeep.2.1, hcand, hlines⟩
  | false =>
    exact ⟨emsProgram1, _, Or.inr rfl, by simp [prerequisiteLoop_eq],
      by simp [prerequisiteLoop_eq], hkeep.2.1, hcand, hlines⟩

theorem prerequisites_translated_first_witness :
    ∃ emsProgram rt1,
      translateEnergyManagementSystemProgram sampleCollaborator "{id-P}".toList
          { m_workspace :=
              [{ type := .Zone, Name := some "Z".toList, ProgramLine := [] },
               { type := .EnergyManagementSystem_Program, Name := some "P".toList,
                 ProgramLine := [some "SET x = S1".toList] },
               { type := .EnergyManagementSystem_Sensor, Name := some "S1".toList,
                 ProgramLine := [] }],
            m_model := [], translated := [], log := [] }
          { type := .EnergyManagementSystem_Program, Name := some "P".toList,
            ProgramLine := [some "SET x = S1".toList] }
        = .returned (some emsProgram) rt1
      ∧ rt1.translated
          = [{ type := .EnergyManagementSystem_Sensor, Name := some "S1".toList,
               ProgramLine := [] }]
      ∧ emsProgram.lines.map some = [some "SET x = {id-G}".toList] := by
  obtain ⟨emsProgram, rt1, hcall, htranslated, _, _, _, hlines⟩ :=
    prerequisites_translated_first sampleCollaborator "{id-P}".toList
      { m_workspace :=
          [{ type := .Zone, Name := some "Z".toList, ProgramLine := [] },
           { type := .EnergyManagementSystem_Program, Name := some "P".toList,
             ProgramLine := [some "SET x = S1".toList] },
           { type := .EnergyManagementSystem_Sensor, Name := some "S1".toList,
             ProgramLine := [] }],
        m_model := [], translated := [], log := [] }
      "P".toList [some "SET x = S1".toList]
  rcases hcall with hcall | hcall
  · refine ⟨emsProgram, rt1, hcall, ?_, ?_⟩
    · rw [htranslated]; decide
    · rw [hlines emsProgram rt1 hcall]; decide
  · have hrun : ∃ p r,
        translateEnergyManagementSystemProgram sampleCollaborator "{id-P}".toList
            { m_workspace :=
                [{ type := .Zone, Name := some "Z".toList, ProgramLine := [] },
                 { type := .EnergyManagementSystem_Program, Name := some "P".toList,
                   ProgramLine := [some "SET x = S1".toList] },
                 { type := .EnergyManagementSystem_Sensor, Name := some "S1".toList,
                   ProgramLine := [] }],
              m_model := [], translated := [], log := [] }
            { type := .EnergyManagementSystem_Program, Name := some "P".toList,
              ProgramLine := [some "SET x = S1".toList] }
          = .returned (some p) r := ⟨_, _, rfl⟩
    obtain ⟨p, r, hr⟩ := hrun
    rw [hr] at hcall
    cases hcall

/-- C17: no cleaned token of a line contains a space, an operator character or a
parenthesis. Hence a candidate whose name contains such a character equals no
cleaned token and is passed over by the candidate loop, and a line is added
unchanged when every named candidate either has such a character in its name or is
not among the cleaned tokens of the line. -/
theorem names_with_delimiters_never_selected (line : Str) :
    (∀ token ∈ cleanedTokens line, ∀ c ∈ token,
      c ≠ ' ' ∧ isOperator c = false ∧ c ≠ '(' ∧ c ≠ ')')
    ∧ (∀ (mo : ModelObject) (name : Str), mo.name = some name →
        (∃ c ∈ name, isPlain c = false) →
        ∀ token ∈ cleanedTokens line,
          mo.name ≠ some token
          ∧ ∀ (rest : List ModelObject) (newline : Str),
              modelObjectLoop token (mo :: rest) newline = modelObjectLoop token rest newline)
    ∧ (∀ modelObjects : List ModelObject,
        (∀ mo ∈ modelObjects, ∀ name, mo.name = some name →
          (∃ c ∈ name, isPlain c = false) ∨ name ∉ cleanedTokens line) →
        rewriteLine modelObjects line = some line) := by
  have hne : ∀ (mo : ModelObject) (name : Str), mo.name = some name →
      (∃ c ∈ name, isPlain c = false) → ∀ token ∈ cleanedTokens line, mo.name ≠ some token := by
    intro mo name hname ⟨c, hc, hplain⟩ token htoken heq
    rw [hname] at heq
    injection heq with heq
    subst heq
    have := cleanedTokens_plain line name htoken c hc
    rw [this] at hplain
    exact absurd hplain (by decide)
  refine ⟨?_, ?_, ?_⟩
  · intro token htoken c hc
    exact (isPlain_iff c).1 (cleanedTokens_plain line token htoken c hc)
  · intro mo name hname hbad token htoken
    have h := hne mo name hname hbad token htoken
    exact ⟨h, fun rest newline => by simp [modelObjectLoop, h]⟩
  · intro modelObjects hall
    apply tokenLoop_no_match
    intro token htoken mo hmo heq
    have hct : replace_all (replace_all token '(') ')' ∈ cleanedTokens line :=
      List.mem_map_of_mem _ htoken
    rcases hall mo hmo _ heq with hbad | hnot
    · exact hne mo _ heq hbad _ hct heq
    · exact hnot hct

theorem names_with_delimiters_never_selected_witness :
    (∀ mo ∈ [known .OS_EnergyManagementSystem_Sensor "Zone-1 Temp".toList "{id-1}".toList,
             known .OS_EnergyManagementSystem_Actuator "Fan (main)".toList "{id-2}".toList,
             known .OS_EnergyManagementSystem_GlobalVariable "Other".toList "{id-3}".toList],
      ∀ name, mo.name = some name →
        (∃ c ∈ name, isPlain c = false)
        ∨ name ∉ cleanedTokens "SET Fan (main) = Zone-1 Temp".toList)
    ∧ rewriteLine
        [known .OS_EnergyManagementSystem_Sensor "Zone-1 Temp".toList "{id-1}".toList,
         known .OS_EnergyManagementSystem_Actuator "Fan (main)".toList "{id-2}".toList,
         known .OS_EnergyManagementSystem_GlobalVariable "Other".toList "{id-3}".toList]
        "SET Fan (main) = Zone-1 Temp".toList
      = some "SET Fan (main) = Zone-1 Temp".toList := by
  have hyp : ∀ mo ∈
      [known .OS_EnergyManagementSystem_Sensor "Zone-1 Temp".toList "{id-1}".toList,
       known .OS_EnergyManagementSystem_Actuator "Fan (main)".toList "{id-2}".toList,
       known .OS_EnergyManagementSystem_GlobalVariable "Other".toList "{id-3}".toList],
      ∀ name, mo.name = some name →
        (∃ c ∈ name, isPlain c = false)
        ∨ name ∉ cleanedTokens "SET Fan (main) = Zone-1 Temp".toList := by
    intro mo hmo name hname
    simp only [List.mem_cons, List.mem_singleton, List.not_mem_nil, or_false] at hmo
    rcases hmo with h | h | h
    · subst h; injection hname with hname; subst hname
      exact Or.inl (by decide)
    · subst h; injection hname with hname; subst hname
      exact Or.inl (by decide)
    · subst h; injection hname with hname; subst hname
      exact Or.inr (by decide)
  exact ⟨hyp, (names_with_delimiters_never_selected _).2.2 _ hyp⟩

/-- C12: when a cleaned token is the name of a candidate, the substitution is made
at the leftmost place where the text of the token occurs in the working line: the
result is `pre ++ handle ++ suf` where the working line is `pre ++ token ++ suf` and
the token starts at no position before the end of `pre`; the length changes by the
length of the handle minus that of the token; and the substitution is made whenever
the text occurs at all. The working line of a token is the line as the tokens before
it left it, and the first working line is the source line itself. -/
theorem substitution_at_first_occurrence (token : Str) (modelObjects : List ModelObject)
    (mo : ModelObject) (newline : Str) (hfirst : firstNamed token modelObjects = some mo) :
    (∀ result, modelObjectLoop token modelObjects newline = some result →
      ∃ pre suf, newline = pre ++ token ++ suf
        ∧ result = pre ++ mo.handle ++ suf
        ∧ (∀ k < pre.length, ¬ token <+: newline.drop k)
        ∧ result.length + token.length = newline.length + mo.handle.length)
    ∧ (∀ pre suf, newline = pre ++ token ++ suf →
      ∃ result, modelObjectLoop token modelObjects newline = some result)
    ∧ (∀ (raw : Str) (rest : List Str),
      tokenLoop modelObjects (raw :: rest) newline
        = (modelObjectLoop (replace_all (replace_all raw '(') ')') modelObjects newline).bind
            (tokenLoop modelObjects rest))
    ∧ (∀ line, rewriteLine modelObjects line = tokenLoop modelObjects (tokens line) line) := by
  have hloop := modelObjectLoop_firstNamed token modelObjects mo newline hfirst
  refine ⟨?_, ?_, ?_, fun line => rfl⟩
  · intro result hres
    rw [hloop] at hres
    cases hf : find newline token with
    | none => simp [hf] at hres
    | some pos =>
      obtain ⟨⟨pre, suf, hs, hlen⟩, hmin⟩ := find_some_spec newline token pos hf
      simp only [hf, Option.bind] at hres
      have hrep := replace_at pre token suf mo.handle
      rw [← hs, hlen, hres] at hrep
      injection hrep with hrep
      refine ⟨pre, suf, hs, hrep, ?_, ?_⟩
      · intro k hk
        exact hmin k (by omega)
      · rw [hrep, hs]
        simp only [List.length_append]
        omega
  · intro pre suf hs
    rw [hloop]
    cases hf : find newline token with
    | none => exact absurd hs (find_none_spec newline token hf pre suf)
    | some pos =>
      obtain ⟨⟨pre1, suf1, hs1, hlen1⟩, _⟩ := find_some_spec newline token pos hf
      have hrep := replace_at pre1 token suf1 mo.handle
      rw [← hs1, hlen1] at hrep
      exact ⟨_, by simp only [Option.bind]; exact hrep⟩
  · intro raw rest
    simp only [tokenLoop]
    cases modelObjectLoop (replace_all (replace_all raw '(') ')') modelObjects newline <;> rfl

theorem substitution_at_first_occurrence_witness :
    (firstNamed "X".toList
        [known .OS_EnergyManagementSystem_GlobalVariable "X".toList "{id-1}".toList]
      = some (known .OS_EnergyManagementSystem_GlobalVariable "X".toList "{id-1}".toList))
    ∧ modelObjectLoop "X".toList
        [known .OS_EnergyManagementSystem_GlobalVariable "X".toList "{id-1}".toList]
        "SetX X".toList = some "Set{id-1} X".toList
    ∧ ∃ pre suf, "SetX X".toList = pre ++ "X".toList ++ suf
        ∧ "Set{id-1} X".toList
            = pre ++ (known .OS_EnergyManagementSystem_GlobalVariable "X".toList
                "{id-1}".toList).handle ++ suf
        ∧ (∀ k < pre.length, ¬ "X".toList <+: "SetX X".toList.drop k)
        ∧ "Set{id-1} X".toList.length + "X".toList.length
            = "SetX X".toList.length
              + (known .OS_EnergyManagementSystem_GlobalVariable "X".toList
                  "{id-1}".toList).handle.length :=
  ⟨by decide, by decide,
   (substitution_at_first_occurrence "X".toList
      [known .OS_EnergyManagementSystem_GlobalVariable "X".toList "{id-1}".toList]
      (known .OS_EnergyManagementSystem_GlobalVariable "X".toList "{id-1}".toList)
      "SetX X".toList (by decide)).1 "Set{id-1} X".toList (by decide)⟩

/-- C13 (counterexample): two known objects are named `A`; for the second, with
identifier `{id-2}`, the line `A + A` holds the name as two whole tokens and nowhere
else, the name is no substring of `{id-2}`, and the other tokens, both empty, match
no candidate. The line is rewritten to `{id-1} + {id-1}`, with the identifier of the
first object, and not to `{id-2} + {id-2}`. -/
theorem repeated_references_counterexample :
    known .OS_EnergyManagementSystem_Sensor "A".toList "{id-2}".toList
        ∈ [known .OS_EnergyManagementSystem_GlobalVariable "A".toList "{id-1}".toList,
           known .OS_EnergyManagementSystem_Sensor "A".toList "{id-2}".toList]
    ∧ cleanedTokens "A + A".toList = ["A".toList, [], [], "A".toList]
    ∧ find "{id-2}".toList "A".toList = none
    ∧ (∀ m ∈ [known .OS_EnergyManagementSystem_GlobalVariable "A".toList "{id-1}".toList,
              known .OS_EnergyManagementSystem_Sensor "A".toList "{id-2}".toList],
        m.name ≠ some [])
    ∧ rewriteLine
        [known .OS_EnergyManagementSystem_GlobalVariable "A".toList "{id-1}".toList,
         known .OS_EnergyManagementSystem_Sensor "A".toList "{id-2}".toList]
        "A + A".toList = some "{id-1} + {id-1}".toList
    ∧ rewriteLine
        [known .OS_EnergyManagementSystem_GlobalVariable "A".toList "{id-1}".toList,
         known .OS_EnergyManagementSystem_Sensor "A".toList "{id-2}".toList]
        "A + A".toList ≠ some "{id-2} + {id-2}".toList := by
  decide

/-- C13 (amended): let `mo` be the first candidate named `N`, let `N` hold no space,
operator character or parenthesis, and let `N` be no substring of the identifier of
`mo`. Let a line be given by its segments and the delimiters between them, where a
segment is either a reference, the name `N` with nothing but parentheses around it,
or another segment, whose cleaned token is the name of no candidate and in which the
text `N` does not occur. Then the line is rewritten to the same line with the
identifier of `mo` at the place of every reference, and nothing else is changed. -/
theorem repeated_references_replaced (modelObjects : List ModelObject) (mo : ModelObject)
    (N : Str) (pieces : List (Piece × Char)) (last : Piece)
    (hfirst : firstNamed N modelObjects = some mo)
    (hplain : ∀ c ∈ N, isPlain c = true)
    (hNU : find mo.handle N = none)
    (hdelims : ∀ p ∈ pieces, isDelimiter p.2 = true)
    (hpieces : ∀ p ∈ pieces, p.1.wellFormed N modelObjects = true)
    (hlast : last.wellFormed N modelObjects = true) :
    rewriteLine modelObjects (renderLine N pieces last)
      = some (renderLine mo.handle pieces last) := by
  have hne : N ≠ [] := by
    intro h
    rw [h, find_nil] at hNU
    exact absurd hNU (by simp)
  have hsegs := segments_renderLine N modelObjects hplain last hlast pieces hdelims hpieces
  have hloop := tokenLoop_renderLine modelObjects mo N hfirst hplain hne hNU last hlast
    pieces [] hdelims hpieces (fun rest => by
      rw [List.nil_append]
      cases find rest N <;> rfl)
  simp only [List.nil_append] at hloop
  unfold rewriteLine tokens splitString
  by_cases hempty : regex_replace (renderLine N pieces last) = []
  · have hline : renderLine N pieces last = [] := by
      simpa [regex_replace] using hempty
    simp only [hempty, if_true, tokenLoop]
    cases pieces with
    | cons pd rest =>
      obtain ⟨piece, d⟩ := pd
      simp [renderLine] at hline
    | nil =>
      cases last with
      | reference opening closing =>
        simp only [renderLine, Piece.render, List.append_eq_nil] at hline
        exact absurd hline.1.2 hne
      | other segment =>
        simp only [renderLine, Piece.render] at hline ⊢
  · simp only [hempty, if_false, hsegs]
    exact hloop

theorem repeated_references_replaced_witness :
    renderLine "A".toList
        [(.reference "(".toList ")".toList, ' '), (.other [], '+'), (.other "2".toList, '*')]
        (.reference [] []) = "(A) +2*A".toList
    ∧ renderLine "{id-1}".toList
        [(.reference "(".toList ")".toList, ' '), (.other [], '+'), (.other "2".toList, '*')]
        (.reference [] []) = "({id-1}) +2*{id-1}".toList
    ∧ rewriteLine
        [known .OS_EnergyManagementSystem_Sensor "B".toList "{id-0}".toList,
         known .OS_EnergyManagementSystem_GlobalVariable "A".toList "{id-1}".toList]
        (renderLine "A".toList
          [(.reference "(".toList ")".toList, ' '), (.other [], '+'), (.other "2".toList, '*')]
          (.reference [] []))
      = some (renderLine
          (known .OS_EnergyManagementSystem_GlobalVariable "A".toList "{id-1}".toList).handle
          [(.reference "(".toList ")".toList, ' '), (.other [], '+'), (.other "2".toList, '*')]
          (.reference [] [])) :=
  ⟨by decide, by decide,
   repeated_references_replaced _ _ _ _ _ (by decide) (by decide) (by decide) (by decide)
     (by decide) (by decide)⟩

end OpenStudio
